import Mathlib

/-!
# Verification of `foundation/json.c` (foundation_lib JSON/SJSON tokenizer)

A shallow embedding of the tokenizer in `src/foundation/json.c` and proofs
about it.

## Modelling conventions

* The input buffer is a total function `b : Nat → Char` together with a
  declared length `len : Nat`.  The C code occasionally reads
  `buffer[pos]` at `pos = length` (one past the end) without a bound
  check; with a total function those reads are well defined and the
  embedding reproduces them exactly, so that out-of-bounds dependence is
  observable as dependence of the result on bytes at indices `≥ len`.
* The token output array is a total map `Nat → json_token` plus an explicit
  `capacity`; a write at `index ≥ capacity` leaves the map unchanged,
  mirroring `get_token` returning `nullptr`.
* `STRING_NPOS` (the `size_t` failure sentinel) is modelled as `none` in
  an `Option Nat`.  Every flow of `STRING_NPOS` through arithmetic or
  comparisons in the C code was checked to behave as "larger than any
  buffer position", which is what the `Option` propagation implements.
* The token fields are C `unsigned int`; the explicit `(unsigned int)`
  casts in `set_token_primitive` / `set_token_id` are modelled as
  `% 2 ^ 32`.  The running token index `current` is modelled as `Nat`.
* The mutually recursive parsers do not structurally terminate (the C
  code can in fact loop forever on some permissive-mode inputs, e.g. an
  unconsumed `=` inside an array), so they take a fuel argument;
  exhausted fuel yields the failure result.
-/

/-- `json_type_t` of the C source. -/
inductive json_type where
  | JSON_UNDEFINED
  | JSON_OBJECT
  | JSON_ARRAY
  | JSON_STRING
  | JSON_PRIMITIVE
deriving DecidableEq, Repr

/-- `json_token_t`: one token slot.  Spans are `(id, id_length)` for the
key and `(value, value_length)` for the value; `child` / `sibling` are
indices into the token array. -/
structure json_token where
  type : json_type
  id : Nat
  id_length : Nat
  child : Nat
  sibling : Nat
  value : Nat
  value_length : Nat
deriving DecidableEq, Repr

/-- Modulus of the C `unsigned int` fields. -/
def UINT_MOD : Nat := 2 ^ 32

/-- A single guarded write into the token array: `get_token` returns a
pointer only for `idx < cap`, otherwise the write is dropped. -/
def write_token (t : Nat → json_token) (cap idx : Nat)
    (f : json_token → json_token) : Nat → json_token :=
  fun j => if idx < cap ∧ j = idx then f (t idx) else t j

/-- `set_token_primitive` (json.c:26). -/
def set_token_primitive (t : Nat → json_token) (cap current : Nat)
    (ty : json_type) (value value_length : Nat) : Nat → json_token :=
  write_token t cap current fun tk =>
    { tk with type := ty, child := 0, sibling := 0,
              value := value % UINT_MOD, value_length := value_length % UINT_MOD }

/-- `set_token_complex` (json.c:39): fixes `child` to `current + 1`. -/
def set_token_complex (t : Nat → json_token) (cap current : Nat)
    (ty : json_type) : Nat → json_token :=
  write_token t cap current fun tk =>
    { tk with type := ty, child := current + 1, sibling := 0,
              value := 0, value_length := 0 }

/-- `set_token_id` (json.c:51): writes only the key span. -/
def set_token_id (t : Nat → json_token) (cap current : Nat)
    (id id_length : Nat) : Nat → json_token :=
  write_token t cap current fun tk =>
    { tk with id := id % UINT_MOD, id_length := id_length % UINT_MOD }

/-- The guarded `token->sibling = v` writes in `parse_object`/`parse_array`. -/
def set_token_sibling (t : Nat → json_token) (cap idx v : Nat) :
    Nat → json_token :=
  write_token t cap idx fun tk => { tk with sibling := v }

/-- `is_valid_token` (json.c:20): vacuously true above capacity. -/
def is_valid_token (t : Nat → json_token) (cap idx : Nat) : Bool :=
  if idx < cap then decide ((t idx).type ≠ json_type.JSON_UNDEFINED) else true

/-- `is_whitespace` (json.c:61). -/
def is_whitespace (c : Char) : Bool :=
  c = ' ' ∨ c = '\t' ∨ c = '\n' ∨ c = '\r'

/-- `is_token_delimiter` (json.c:66). -/
def is_token_delimiter (c : Char) : Bool :=
  is_whitespace c ∨ c = ']' ∨ c = '}' ∨ c = ','

/-- The loop of `skip_whitespace` (json.c:71), structurally recursive on
the iteration bound `k`.  Every iteration advances `pos` by one, so the
wrapper's `k = len - pos` makes `k = 0` occur only once `pos ≥ len`; the
`k = 0` arm therefore repeats the loop's end-of-buffer result. -/
def skip_whitespace_go (b : Nat → Char) (len : Nat) : Nat → Nat → Nat
  | 0, pos => pos
  | k + 1, pos =>
    if pos < len then
      if is_whitespace (b pos) then skip_whitespace_go b len k (pos + 1) else pos
    else pos

/-- `skip_whitespace` (json.c:71). -/
def skip_whitespace (b : Nat → Char) (len pos : Nat) : Nat :=
  skip_whitespace_go b len (len - pos) pos

/-- The hex-digit test of the `\uXXXX` escape validation (json.c:102),
with the source's numeric character ranges. -/
def is_hex_digit (c : Char) : Bool :=
  (48 ≤ c.toNat ∧ c.toNat ≤ 57) ∨ (65 ≤ c.toNat ∧ c.toNat ≤ 70) ∨
    (97 ≤ c.toNat ∧ c.toNat ≤ 102)

/-- The scanning loop of `parse_string` (json.c:81).  `start` is the fixed
start position, `pos` the cursor.  The `\uXXXX` loop
(`for (esc = 0; esc < 4 && pos < length; ++esc)`) is unrolled into the
four nested conditionals: the bound is checked before each increment but
the digit is read after it, so the byte at `len` can be inspected. -/
def parse_string_go (b : Nat → Char) (len : Nat) (simple : Bool)
    (start : Nat) : Nat → Nat → Option Nat
  | 0, pos => if simple then some (pos - start) else none
  | k + 1, pos =>
  if pos < len then
    let c := b pos
    if simple ∧ (is_token_delimiter c ∨ c = '=' ∨ c = ':') then some (pos - start)
    else if c = '"' then some (pos - start)
    else if c = '\\' ∧ pos + 1 < len then
      let e := b (pos + 1)
      if e = '"' ∨ e = '/' ∨ e = '\\' ∨ e = 'b' ∨ e = 'f' ∨ e = 'r' ∨ e = 'n' ∨ e = 't' then
        parse_string_go b len simple start k (pos + 1)
      else if e = 'u' then
        if ¬ is_hex_digit (b (pos + 2)) then none
        else if ¬ (pos + 2 < len) then parse_string_go b len simple start k (pos + 2)
        else if ¬ is_hex_digit (b (pos + 3)) then none
        else if ¬ (pos + 3 < len) then parse_string_go b len simple start k (pos + 3)
        else if ¬ is_hex_digit (b (pos + 4)) then none
        else if ¬ (pos + 4 < len) then parse_string_go b len simple start k (pos + 4)
        else if ¬ is_hex_digit (b (pos + 5)) then none
        else parse_string_go b len simple start k (pos + 5)
      else none
    else parse_string_go b len simple start k (pos + 1)
  else if simple then some (pos - start) else none

/-- `parse_string` (json.c:81): returns the scanned content length, or
`none` for `STRING_NPOS`.  Each loop iteration advances `pos` by at least
one, so `len - pos` iterations suffice and the `k = 0` arm (which repeats
the end-of-buffer result) is reached only with `pos ≥ len`. -/
def parse_string (b : Nat → Char) (len pos : Nat) (simple : Bool) : Option Nat :=
  parse_string_go b len simple pos (len - pos) pos

/-- The scanning loop of `parse_number` (json.c:116), structurally
recursive on the iteration bound `k`.  Note that a `-` at the start
position falls through every branch into the "not a digit" check and
fails, exactly as in the source. -/
def parse_number_go (b : Nat → Char) (len start : Nat) :
    Nat → Nat → Bool → Bool → Bool → Option Nat
  | 0, pos, _, _, _ => some (pos - start)
  | k + 1, pos, has_dot, has_digit, has_exp =>
  if pos < len then
    let c := b pos
    if is_token_delimiter c then some (pos - start)
    else if c = '-' ∧ ¬ (start = pos) then none
    else if c = '.' then
      if has_dot ∨ has_exp then none
      else parse_number_go b len start k (pos + 1) true has_digit has_exp
    else if c = 'e' ∨ c = 'E' then
      if ¬ has_digit ∨ has_exp then none
      else
        let pos2 := if pos + 1 < len ∧ (b (pos + 1) = '+' ∨ b (pos + 1) = '-')
          then pos + 1 else pos
        parse_number_go b len start k (pos2 + 1) has_dot has_digit true
    else if c < '0' ∨ c > '9' then none
    else parse_number_go b len start k (pos + 1) has_dot true has_exp
  else some (pos - start)

/-- `parse_number` (json.c:116).  As for `parse_string`, `len - pos`
iterations suffice and the `k = 0` arm repeats the end-of-buffer result. -/
def parse_number (b : Nat → Char) (len pos : Nat) : Option Nat :=
  parse_number_go b len pos (len - pos) pos false false false

/-- Result of one recursive parser call: the end position (`none` for
`STRING_NPOS`), the token index `*current`, and the token array. -/
abbrev PState := Option Nat × Nat × (Nat → json_token)

mutual

/-- `parse_value` (json.c:261): dispatch on the first significant
character.  One fuel unit is consumed per call. -/
def parse_value (b : Nat → Char) (len pos : Nat) (t : Nat → json_token)
    (cap cur : Nat) (simple : Bool) (fuel : Nat) : PState :=
  match fuel with
  | 0 => (none, cur, t)
  | fuel + 1 =>
    let pos := skip_whitespace b len pos
    if pos < len then
      let c := b pos
      let pos := pos + 1
      if c = '{' then
        parse_object b len pos (set_token_complex t cap cur .JSON_OBJECT)
          cap (cur + 1) simple fuel
      else if c = '[' then
        parse_array b len pos (set_token_complex t cap cur .JSON_ARRAY)
          cap (cur + 1) simple fuel
      else if c = '-' ∨ ('0' ≤ c ∧ c ≤ '9') ∨ c = '.' then
        match parse_number b len (pos - 1) with
        | none => (none, cur, t)
        | some string =>
          (some (pos + string - 1), cur + 1,
            set_token_primitive t cap cur .JSON_PRIMITIVE (pos - 1) string)
      else if c = 't' ∧ len - pos ≥ 4 ∧ b pos = 'r' ∧ b (pos + 1) = 'u' ∧
          b (pos + 2) = 'e' ∧ is_token_delimiter (b (pos + 3)) then
        (some (pos + 3), cur + 1,
          set_token_primitive t cap cur .JSON_PRIMITIVE (pos - 1) 4)
      else if c = 'f' ∧ len - pos ≥ 5 ∧ b pos = 'a' ∧ b (pos + 1) = 'l' ∧
          b (pos + 2) = 's' ∧ b (pos + 3) = 'e' ∧ is_token_delimiter (b (pos + 4)) then
        (some (pos + 4), cur + 1,
          set_token_primitive t cap cur .JSON_PRIMITIVE (pos - 1) 5)
      else if (c = 't' ∨ c = 'f') ∧ ¬ simple then (none, cur, t)
      else if c ≠ '"' ∧ ¬ simple then (none, cur, t)
      else
        let pos := if c = '"' then pos else pos - 1
        match parse_string b len pos simple with
        | none => (none, cur, t)
        | some string =>
          let t := set_token_primitive t cap cur .JSON_STRING pos string
          let string := if ¬ simple ∨ (pos + string < len ∧ b (pos + string) = '"')
            then string + 1 else string
          (some (pos + string), cur + 1, t)
    else (none, cur, t)
termination_by structural fuel

/-- `parse_object` (json.c:164): the leading whitespace skip, then the
member loop. -/
def parse_object (b : Nat → Char) (len pos : Nat) (t : Nat → json_token)
    (cap cur : Nat) (simple : Bool) (fuel : Nat) : PState :=
  match fuel with
  | 0 => (none, cur, t)
  | fuel + 1 =>
    parse_object_loop b len (skip_whitespace b len pos) 0 t cap cur simple fuel
termination_by structural fuel

/-- The `while (pos < length)` loop of `parse_object`, with the
last-completed-member index `last` (0 = none). -/
def parse_object_loop (b : Nat → Char) (len pos last : Nat)
    (t : Nat → json_token) (cap cur : Nat) (simple : Bool) (fuel : Nat) : PState :=
  match fuel with
  | 0 => (none, cur, t)
  | fuel + 1 =>
    if pos < len then
      let c := b pos
      let pos := pos + 1
      if c = '}' then
        if last ≠ 0 ∧ ¬ is_valid_token t cap last then (none, cur, t)
        else (some pos, cur, t)
      else if c = ',' then
        if last = 0 ∨ ¬ is_valid_token t cap last then (none, cur, t)
        else
          parse_object_loop b len (skip_whitespace b len pos) 0
            (set_token_sibling t cap last cur) cap cur simple fuel
      else
        if last ≠ 0 then (none, cur, t)
        else if c ≠ '"' ∧ ¬ simple then (none, cur, t)
        else
          let pos := if c = '"' then pos else pos - 1
          match parse_string b len pos simple with
          | none => (none, cur, t)
          | some string =>
            let t := set_token_id t cap cur pos string
            let string := if ¬ simple ∨ (pos + string < len ∧ b (pos + string) = '"')
              then string + 1 else string
            let pos := skip_whitespace b len (pos + string)
            if b pos ≠ ':' ∧ (¬ simple ∨ b pos ≠ '=') then (none, cur, t)
            else
              let r := parse_value b len (pos + 1) t cap cur simple fuel
              match r.1 with
              | none => (none, r.2.1, r.2.2)
              | some pos2 =>
                let pos3 := skip_whitespace b len pos2
                if simple ∧ pos3 < len ∧ b pos3 ≠ ',' ∧ b pos3 ≠ '}' then
                  parse_object_loop b len pos3 0
                    (set_token_sibling r.2.2 cap cur r.2.1) cap r.2.1 simple fuel
                else
                  parse_object_loop b len pos3 cur r.2.2 cap r.2.1 simple fuel
    else
      (if simple then some pos else none, cur, t)
termination_by structural fuel

/-- `parse_array` (json.c:229): whitespace skip and empty-array check
(which reads `buffer[pos]` without re-checking the bound), then the
element loop. -/
def parse_array (b : Nat → Char) (len pos : Nat) (t : Nat → json_token)
    (cap cur : Nat) (simple : Bool) (fuel : Nat) : PState :=
  match fuel with
  | 0 => (none, cur, t)
  | fuel + 1 =>
    let pos := skip_whitespace b len pos
    if b pos = ']' then (some (skip_whitespace b len (pos + 1)), cur, t)
    else parse_array_loop b len pos 0 t cap cur simple fuel
termination_by structural fuel

/-- The `while (pos < length)` loop of `parse_array`, with the previous
element's index `last` (0 = none). -/
def parse_array_loop (b : Nat → Char) (len pos last : Nat)
    (t : Nat → json_token) (cap cur : Nat) (simple : Bool) (fuel : Nat) : PState :=
  match fuel with
  | 0 => (none, cur, t)
  | fuel + 1 =>
    if pos < len then
      let r := parse_value b len pos (set_token_id t cap cur 0 0) cap cur simple fuel
      match r.1 with
      | none => (none, r.2.1, r.2.2)
      | some pos2 =>
        let t3 := if last ≠ 0 then set_token_sibling r.2.2 cap last cur else r.2.2
        let pos3 := skip_whitespace b len pos2
        if b pos3 = ',' then parse_array_loop b len (pos3 + 1) cur t3 cap r.2.1 simple fuel
        else if b pos3 = ']' then (some (pos3 + 1), r.2.1, t3)
        else if ¬ simple then (none, r.2.1, t3)
        else parse_array_loop b len pos3 cur t3 cap r.2.1 simple fuel
    else (none, cur, t)
termination_by structural fuel

end

/-- `json_parse` (json.c:331): the strict entry point.  Returns the token
count (0 on failure) and the final token array. -/
def json_parse (b : Nat → Char) (size : Nat) (t : Nat → json_token)
    (cap : Nat) (fuel : Nat) : Nat × (Nat → json_token) :=
  let t := set_token_id t cap 0 0 0
  let t := set_token_primitive t cap 0 .JSON_UNDEFINED 0 0
  let r := parse_value b size 0 t cap 0 false fuel
  match r.1 with
  | none => (0, r.2.2)
  | some _ => (r.2.1, r.2.2)

/-- `sjson_parse` (json.c:341): the permissive entry point; synthesizes a
root object when the first significant character is not `{`. -/
def sjson_parse (b : Nat → Char) (size : Nat) (t : Nat → json_token)
    (cap : Nat) (fuel : Nat) : Nat × (Nat → json_token) :=
  let pos := skip_whitespace b size 0
  if pos < size ∧ b pos ≠ '{' then
    let t := set_token_id t cap 0 0 0
    let t := set_token_complex t cap 0 .JSON_OBJECT
    let r := parse_object b size pos t cap 1 true fuel
    match r.1 with
    | none => (0, r.2.2)
    | some _ => (r.2.1, r.2.2)
  else
    let r := parse_value b size pos t cap 0 true fuel
    match r.1 with
    | none => (0, r.2.2)
    | some _ => (r.2.1, r.2.2)

/-! ## Concrete inputs

Buffers for concrete evaluations.  `strbuf` extends a `String` to a total
byte function; positions past the end read the placeholder `'x'`, standing
for whatever memory follows the buffer in C. -/

/-- A concrete buffer: the string's characters, with `'x'` past the end. -/
def strbuf (s : String) (i : Nat) : Char := s.toList.getD i 'x'

/-- A zeroed token slot. -/
def zero_token : json_token :=
  { type := .JSON_UNDEFINED, id := 0, id_length := 0, child := 0,
    sibling := 0, value := 0, value_length := 0 }

/-- A zero-initialized output array. -/
def zero_tokens : Nat → json_token := fun _ => zero_token

/-- An uninitialized output array whose slot contents are garbage: the
key span (5, 99) lies far outside any small buffer. -/
def garbage_tokens : Nat → json_token := fun _ =>
  { type := .JSON_UNDEFINED, id := 5, id_length := 99, child := 0,
    sibling := 0, value := 0, value_length := 0 }

def input_neg_num : String := "-0.5e-3"
def input_pos_num : String := "0.5e-3"
def input_neg_one : String := "-1"
def input_true : String := "true"
def input_true_sp : String := "true "
def input_truex : String := "truex"
def input_false : String := "false"
def input_false_sp : String := "false "
def input_arr_sp : String := "[1 2]"
def input_obj_arr_sp : String := "\x7b\"a\":[1 2]\x7d"
def input_trailing_comma : String := "\x7b\"a\":1,\x7d"
def input_comma_only : String := "\x7b,\x7d"
def input_double_comma : String := "\x7b\"a\":1,,\x7d"
def input_a1 : String := "a=1"
def input_arr4 : String := "[1,2,3,4]"
def input_obj_empty : String := "\x7b\x7d"

/-! ## Specification-side definitions

`spec_number_accepts` is the specification's number grammar, used to
compare the code's number scanner against the spec for the refinement
claims. -/

/-- Modelled from the spec (§4.1): after the exponent marker and its
optional sign, only digits may follow. -/
def spec_exp_digits : List Char → Bool
  | [] => true
  | c :: rest => if '0' ≤ c ∧ c ≤ '9' then spec_exp_digits rest else false

/-- Modelled from the spec (§4.1 `scan_number`): after the optional
leading `-`, the scan allows at most one `.`, at most one exponent marker
`e`/`E` (optionally followed by a single `+`/`-`) only after at least one
digit, and otherwise only digits. -/
def spec_number_scan : List Char → Bool → Bool → Bool
  | [], _, _ => true
  | c :: rest, has_dot, has_digit =>
    if c = '.' then
      if has_dot then false
      else spec_number_scan rest true has_digit
    else if c = 'e' ∨ c = 'E' then
      if ¬ has_digit then false
      else
        match rest with
        | [] => true
        | d :: rest2 =>
          if d = '+' ∨ d = '-' then spec_exp_digits rest2
          else spec_exp_digits rest
    else if '0' ≤ c ∧ c ≤ '9' then spec_number_scan rest has_dot true
    else false

/-- Modelled from the spec (§4.1): a whole numeric literal — an optional
leading `-`, then `spec_number_scan`. -/
def spec_number_accepts : List Char → Bool
  | '-' :: rest => spec_number_scan rest false false
  | s => spec_number_scan s false false

/-! ## Invariant predicates -/

/-- The index invariants of a produced token array (claim C8), for every
token below count `n` that lies within capacity: a complex token's child
is its own index plus one, and a sibling index is either the unset
sentinel 0 or strictly greater than the holder's index. -/
def tree_shape_ok (t : Nat → json_token) (cap n : Nat) : Prop :=
  ∀ i, i < n → i < cap →
    (((t i).type = .JSON_OBJECT ∨ (t i).type = .JSON_ARRAY) → (t i).child = i + 1) ∧
    ((t i).sibling = 0 ∨ i < (t i).sibling)

/-- Span containment (claim C10) for every token below count `n` within
capacity: both spans end inside the `len`-byte input buffer. -/
def spans_ok (t : Nat → json_token) (len cap n : Nat) : Prop :=
  ∀ i, i < n → i < cap →
    (t i).id + (t i).id_length ≤ len ∧ (t i).value + (t i).value_length ≤ len

/-- The capacity-independent observables of one parser call: its result
position and the logical token index. -/
def obs (r : PState) : Option Nat × Nat := (r.1, r.2.1)

/-! ## Buffers that differ only at one past the end (claim C9) -/

/-- `"["` of length 1, where the unowned byte at index 1 happens to be `]`. -/
def oob_bracket_close : Nat → Char := fun i =>
  if i = 0 then '[' else if i = 1 then ']' else 'x'

/-- `"["` of length 1, where the unowned byte at index 1 is garbage. -/
def oob_bracket_other : Nat → Char := fun i => if i = 0 then '[' else 'x'

/-- `"[1"` of length 2, where the unowned byte at index 2 happens to be `]`. -/
def oob_elem_close : Nat → Char := fun i =>
  if i = 0 then '[' else if i = 1 then '1' else if i = 2 then ']' else 'x'

/-- `"[1"` of length 2, where the unowned byte at index 2 is garbage. -/
def oob_elem_other : Nat → Char := fun i =>
  if i = 0 then '[' else if i = 1 then '1' else 'x'

/-! ## Claim theorems: concrete evaluations -/

/-- Claim C2 (code bug): `-1` is a syntactically valid strict-grammar
value — a numeric literal per the specification's number grammar — yet
`json_parse` returns count 0 for it, because `parse_number` falls through
to the not-a-digit check on a leading `-` and fails.  The claim that
every valid strict value yields a count of at least 1 is therefore
violated by the code. -/
theorem C2_valid_number_value_rejected :
    spec_number_accepts input_neg_one.toList = true ∧
    (json_parse (strbuf input_neg_one) input_neg_one.length zero_tokens 8 64).1 = 0 := by
  constructor <;> decide

/-- Claim C3 (code bug): the strict parse of `-0.5e-3` returns 0, not 1:
`parse_number` rejects the leading `-` (it falls through every branch into
the not-a-digit check), even though `parse_value` explicitly dispatches
`-` to the number scanner and the specification's number grammar accepts
it.  Without the minus sign the very same literal (`0.5e-3`) parses as one
Primitive token spanning the whole input, confirming that the dot and
exponent handling otherwise work as claimed. -/
theorem C3_minus_number_parse_fails :
    (json_parse (strbuf input_neg_num) input_neg_num.length zero_tokens 8 64).1 = 0 ∧
    spec_number_accepts input_neg_num.toList = true ∧
    (json_parse (strbuf input_pos_num) input_pos_num.length zero_tokens 8 64).1 = 1 ∧
    ((json_parse (strbuf input_pos_num) input_pos_num.length zero_tokens 8 64).2 0).type
      = .JSON_PRIMITIVE ∧
    ((json_parse (strbuf input_pos_num) input_pos_num.length zero_tokens 8 64).2 0).value = 0 ∧
    ((json_parse (strbuf input_pos_num) input_pos_num.length zero_tokens 8 64).2 0).value_length
      = 6 := by
  refine ⟨?_, ?_, ?_, ?_, ?_, ?_⟩ <;> decide

/-- Claim C4 (counterexample): the strict parse of the 4-byte input
`true` returns count 0, not 1 — the literal check demands
`length - pos >= 4`, i.e. a delimiter byte inside the buffer after the
literal, so end of buffer does not qualify. -/
theorem C4_true_alone_fails :
    (json_parse (strbuf input_true) input_true.length zero_tokens 8 64).1 = 0 ∧
    (json_parse (strbuf input_true) input_true.length zero_tokens 8 64).1 ≠ 1 := by
  constructor <;> decide

/-- Claim C5 (counterexample): array parsing is not equally strict in
both grammars: in permissive mode, after an array element, a character
other than `,` or `]` simply starts the next element.  The permissive
parse of `{"a":[1 2]}` succeeds with count 4, parsing `1` and `2` as two
comma-less siblings. -/
theorem C5_permissive_array_comma_optional :
    (sjson_parse (strbuf input_obj_arr_sp) input_obj_arr_sp.length zero_tokens 16 64).1 = 4 ∧
    (sjson_parse (strbuf input_obj_arr_sp) input_obj_arr_sp.length zero_tokens 16 64).1 ≠ 0 := by
  constructor <;> decide

/-- Claim C5 (amended): in strict mode, after an array element the next
non-whitespace character must be `,` or `]` (the strict parse of
`{"a":[1 2]}` fails); in permissive mode any other character starts the
next element instead, linking it as a sibling (`{"a":[1 2]}` yields 4
tokens, `1` at token 2 with sibling 3 and `2` at token 3).  The permissive
parse of the top-level input `[1 2]` still returns 0, but only because an
input not beginning with `{` is parsed as an implicit object body, where
`[1` scans as a key that is not followed by a separator. -/
theorem C5_array_comma_rules :
    (json_parse (strbuf input_obj_arr_sp) input_obj_arr_sp.length zero_tokens 16 64).1 = 0 ∧
    (sjson_parse (strbuf input_obj_arr_sp) input_obj_arr_sp.length zero_tokens 16 64).1 = 4 ∧
    ((sjson_parse (strbuf input_obj_arr_sp) input_obj_arr_sp.length zero_tokens 16 64).2 2).sibling
      = 3 ∧
    ((sjson_parse (strbuf input_obj_arr_sp) input_obj_arr_sp.length zero_tokens 16 64).2 2).value
      = 6 ∧
    ((sjson_parse (strbuf input_obj_arr_sp) input_obj_arr_sp.length zero_tokens 16 64).2 3).value
      = 8 ∧
    ((sjson_parse (strbuf input_obj_arr_sp) input_obj_arr_sp.length zero_tokens 16 64).2 3).value_length
      = 1 ∧
    (sjson_parse (strbuf input_arr_sp) input_arr_sp.length zero_tokens 16 64).1 = 0 := by
  refine ⟨?_, ?_, ?_, ?_, ?_, ?_, ?_⟩ <;> decide

/-- Claim C6 (counterexample): the strict parse of `{"a":1,}` — a comma
with no following member before the closing brace — returns count 2, not
0: the `}` arm only rejects a *started but incomplete* member, and after a
comma `last` has been reset, so the trailing comma is silently accepted. -/
theorem C6_trailing_comma_accepted :
    (json_parse (strbuf input_trailing_comma) input_trailing_comma.length zero_tokens 8 64).1
      = 2 ∧
    (json_parse (strbuf input_trailing_comma) input_trailing_comma.length zero_tokens 8 64).1
      ≠ 0 := by
  constructor <;> decide

/-- Claim C6 (amended): a comma with no following member fails unless it
is immediately (modulo whitespace) followed by the closing brace: the
strict parse of `{"a":1,}` succeeds with count 2, leaving the last
member's sibling index dangling at 2 (one past the produced tokens),
while `{,}` and `{"a":1,,}` both fail with count 0. -/
theorem C6_object_comma_behaviour :
    (json_parse (strbuf input_trailing_comma) input_trailing_comma.length zero_tokens 8 64).1
      = 2 ∧
    ((json_parse (strbuf input_trailing_comma) input_trailing_comma.length zero_tokens 8 64).2 1).sibling
      = 2 ∧
    (json_parse (strbuf input_comma_only) input_comma_only.length zero_tokens 8 64).1 = 0 ∧
    (json_parse (strbuf input_double_comma) input_double_comma.length zero_tokens 8 64).1
      = 0 := by
  refine ⟨?_, ?_, ?_, ?_⟩ <;> decide

/-- Claim C7: the permissive parse of the 3-byte input `a=1` returns
count 2: a synthesized root Object token at index 0 with first child 1,
and a Primitive token at index 1 whose key span is (0, 1) (the byte `a`)
and whose value span is (2, 1) (the byte `1`). -/
theorem C7_sjson_implicit_root :
    (sjson_parse (strbuf input_a1) input_a1.length zero_tokens 8 64).1 = 2 ∧
    ((sjson_parse (strbuf input_a1) input_a1.length zero_tokens 8 64).2 0).type
      = .JSON_OBJECT ∧
    ((sjson_parse (strbuf input_a1) input_a1.length zero_tokens 8 64).2 0).child = 1 ∧
    ((sjson_parse (strbuf input_a1) input_a1.length zero_tokens 8 64).2 1).type
      = .JSON_PRIMITIVE ∧
    ((sjson_parse (strbuf input_a1) input_a1.length zero_tokens 8 64).2 1).id = 0 ∧
    ((sjson_parse (strbuf input_a1) input_a1.length zero_tokens 8 64).2 1).id_length = 1 ∧
    ((sjson_parse (strbuf input_a1) input_a1.length zero_tokens 8 64).2 1).value = 2 ∧
    ((sjson_parse (strbuf input_a1) input_a1.length zero_tokens 8 64).2 1).value_length
      = 1 := by
  refine ⟨?_, ?_, ?_, ?_, ?_, ?_, ?_, ?_⟩ <;> decide

/-- Claim C9: the lexer inspects the byte at index `len` (one past the
declared end) without re-checking the bound: two buffers that agree at
every index other than the one-past-the-end index produce different
parse results.  The first pair exercises the empty-array check at the
start of an array (strict parse of `[`, json.c:237), the second the
`,`/`]` check after an array element (strict parse of `[1`, json.c:250). -/
theorem C9_out_of_bounds_read_observable :
    (∀ i, i ≠ 1 → oob_bracket_close i = oob_bracket_other i) ∧
    (json_parse oob_bracket_close 1 zero_tokens 8 64).1 = 1 ∧
    (json_parse oob_bracket_other 1 zero_tokens 8 64).1 = 0 ∧
    (∀ i, i ≠ 2 → oob_elem_close i = oob_elem_other i) ∧
    (json_parse oob_elem_close 2 zero_tokens 8 64).1 = 2 ∧
    (json_parse oob_elem_other 2 zero_tokens 8 64).1 = 0 := by
  refine ⟨?_, by decide, by decide, ?_, by decide, by decide⟩
  · intro i hi
    simp only [oob_bracket_close, oob_bracket_other]
    rcases eq_or_ne i 0 with h0 | h0 <;> simp [h0, hi]
  · intro i hi
    simp only [oob_elem_close, oob_elem_other]
    rcases eq_or_ne i 0 with h0 | h0
    · simp [h0]
    · rcases eq_or_ne i 1 with h1 | h1 <;> simp [h0, h1, hi]

/-- Claim C10 (counterexample): the permissive parse of `{}` (input
beginning with `{`) never writes the root token's key span, so slot 0
keeps whatever the caller's array already held: starting from an
uninitialized array whose slots carry key span (5, 99), the parse
succeeds with count 1 = capacity minimum, yet token 0's key span ends at
104, far outside the 2-byte buffer. -/
theorem C10_sjson_root_key_garbage :
    (sjson_parse (strbuf input_obj_empty) input_obj_empty.length garbage_tokens 4 64).1 = 1 ∧
    ((sjson_parse (strbuf input_obj_empty) input_obj_empty.length garbage_tokens 4 64).2 0).id
      = 5 ∧
    ((sjson_parse (strbuf input_obj_empty) input_obj_empty.length garbage_tokens 4 64).2 0).id_length
      = 99 ∧
    ¬ (((sjson_parse (strbuf input_obj_empty) input_obj_empty.length garbage_tokens 4 64).2 0).id
        + ((sjson_parse (strbuf input_obj_empty) input_obj_empty.length garbage_tokens 4 64).2 0).id_length
        ≤ input_obj_empty.length) := by
  refine ⟨?_, ?_, ?_, ?_⟩ <;> decide

/-! ## Write lemmas -/

theorem write_token_eq (t : Nat → json_token) (cap idx : Nat)
    (f : json_token → json_token) (j : Nat) :
    write_token t cap idx f j = if idx < cap ∧ j = idx then f (t idx) else t j := rfl

theorem write_token_of_ne (t : Nat → json_token) (cap idx : Nat)
    (f : json_token → json_token) (j : Nat) (h : j ≠ idx) :
    write_token t cap idx f j = t j := by
  simp [write_token, h]

theorem write_token_of_ge (t : Nat → json_token) (cap idx : Nat)
    (f : json_token → json_token) (j : Nat) (h : cap ≤ j) :
    write_token t cap idx f j = t j := by
  rw [write_token_eq, if_neg]
  rintro ⟨h1, rfl⟩
  omega

theorem set_token_primitive_of_ge (t : Nat → json_token) (cap c : Nat)
    (ty : json_type) (v vl j : Nat) (h : cap ≤ j) :
    set_token_primitive t cap c ty v vl j = t j :=
  write_token_of_ge _ _ _ _ _ h

theorem set_token_complex_of_ge (t : Nat → json_token) (cap c : Nat)
    (ty : json_type) (j : Nat) (h : cap ≤ j) :
    set_token_complex t cap c ty j = t j :=
  write_token_of_ge _ _ _ _ _ h

theorem set_token_id_of_ge (t : Nat → json_token) (cap c i l j : Nat) (h : cap ≤ j) :
    set_token_id t cap c i l j = t j :=
  write_token_of_ge _ _ _ _ _ h

theorem set_token_sibling_of_ge (t : Nat → json_token) (cap idx v j : Nat) (h : cap ≤ j) :
    set_token_sibling t cap idx v j = t j :=
  write_token_of_ge _ _ _ _ _ h

set_option maxHeartbeats 1000000

/-! ## Capacity frame: slots at index ≥ capacity are never written (C1) -/

/-- All five recursive parser functions leave every token slot at index
at least `cap` untouched, whatever the input, state and fuel. -/
theorem parse_frame_ge_cap (fuel : Nat) :
    (∀ b len pos t cap cur simple j, cap ≤ j →
      ((parse_value b len pos t cap cur simple fuel).2.2) j = t j) ∧
    (∀ b len pos t cap cur simple j, cap ≤ j →
      ((parse_object b len pos t cap cur simple fuel).2.2) j = t j) ∧
    (∀ b len pos last t cap cur simple j, cap ≤ j →
      ((parse_object_loop b len pos last t cap cur simple fuel).2.2) j = t j) ∧
    (∀ b len pos t cap cur simple j, cap ≤ j →
      ((parse_array b len pos t cap cur simple fuel).2.2) j = t j) ∧
    (∀ b len pos last t cap cur simple j, cap ≤ j →
      ((parse_array_loop b len pos last t cap cur simple fuel).2.2) j = t j) := by
  induction fuel with
  | zero => refine ⟨?_, ?_, ?_, ?_, ?_⟩ <;> intros <;> rfl
  | succ n ih =>
    obtain ⟨ihv, iho, ihol, iha, ihal⟩ := ih
    refine ⟨?_, ?_, ?_, ?_, ?_⟩
    · intro b len pos t cap cur simple j hj
      have Wp : ∀ t' c ty v vl, set_token_primitive t' cap c ty v vl j = t' j :=
        fun t' c ty v vl => set_token_primitive_of_ge t' cap c ty v vl j hj
      have Wc : ∀ t' c ty, set_token_complex t' cap c ty j = t' j :=
        fun t' c ty => set_token_complex_of_ge t' cap c ty j hj
      have Wi : ∀ t' c i l, set_token_id t' cap c i l j = t' j :=
        fun t' c i l => set_token_id_of_ge t' cap c i l j hj
      have V : ∀ b len pos t cur simple,
          ((parse_value b len pos t cap cur simple n).2.2) j = t j :=
        fun b len pos t cur simple => ihv b len pos t cap cur simple j hj
      have O : ∀ b len pos t cur simple,
          ((parse_object b len pos t cap cur simple n).2.2) j = t j :=
        fun b len pos t cur simple => iho b len pos t cap cur simple j hj
      have A : ∀ b len pos t cur simple,
          ((parse_array b len pos t cap cur simple n).2.2) j = t j :=
        fun b len pos t cur simple => iha b len pos t cap cur simple j hj
      rw [parse_value]
      dsimp only
      repeat' split
      all_goals first
        | rfl
        | simp only [Wp, Wc, Wi, V, O, A]
    · intro b len pos t cap cur simple j hj
      rw [parse_object]
      exact ihol _ _ _ _ _ _ _ _ _ hj
    · intro b len pos last t cap cur simple j hj
      have Wi : ∀ t' c i l, set_token_id t' cap c i l j = t' j :=
        fun t' c i l => set_token_id_of_ge t' cap c i l j hj
      have Ws : ∀ t' i v, set_token_sibling t' cap i v j = t' j :=
        fun t' i v => set_token_sibling_of_ge t' cap i v j hj
      have V : ∀ b len pos t cur simple,
          ((parse_value b len pos t cap cur simple n).2.2) j = t j :=
        fun b len pos t cur simple => ihv b len pos t cap cur simple j hj
      have OL : ∀ b len pos last t cur simple,
          ((parse_object_loop b len pos last t cap cur simple n).2.2) j = t j :=
        fun b len pos last t cur simple => ihol b len pos last t cap cur simple j hj
      rw [parse_object_loop]
      dsimp only
      repeat' split
      all_goals first
        | rfl
        | simp only [Wi, Ws, V, OL]
    · intro b len pos t cap cur simple j hj
      have AL : ∀ b len pos last t cur simple,
          ((parse_array_loop b len pos last t cap cur simple n).2.2) j = t j :=
        fun b len pos last t cur simple => ihal b len pos last t cap cur simple j hj
      rw [parse_array]
      try dsimp only
      repeat' split
      all_goals first
        | rfl
        | simp only [AL]
    · intro b len pos last t cap cur simple j hj
      have Wi : ∀ t' c i l, set_token_id t' cap c i l j = t' j :=
        fun t' c i l => set_token_id_of_ge t' cap c i l j hj
      have Ws : ∀ t' i v, set_token_sibling t' cap i v j = t' j :=
        fun t' i v => set_token_sibling_of_ge t' cap i v j hj
      have V : ∀ b len pos t cur simple,
          ((parse_value b len pos t cap cur simple n).2.2) j = t j :=
        fun b len pos t cur simple => ihv b len pos t cap cur simple j hj
      have AL : ∀ b len pos last t cur simple,
          ((parse_array_loop b len pos last t cap cur simple n).2.2) j = t j :=
        fun b len pos last t cur simple => ihal b len pos last t cap cur simple j hj
      rw [parse_array_loop]
      dsimp only
      repeat' split
      all_goals first
        | rfl
        | simp only [Wi, Ws, V, AL]

/-! ## Monotonicity of the logical token index -/

/-- The logical token index `current` never decreases. -/
theorem parse_cur_mono (fuel : Nat) :
    (∀ b len pos t cap cur simple, cur ≤ (parse_value b len pos t cap cur simple fuel).2.1) ∧
    (∀ b len pos t cap cur simple, cur ≤ (parse_object b len pos t cap cur simple fuel).2.1) ∧
    (∀ b len pos last t cap cur simple,
      cur ≤ (parse_object_loop b len pos last t cap cur simple fuel).2.1) ∧
    (∀ b len pos t cap cur simple, cur ≤ (parse_array b len pos t cap cur simple fuel).2.1) ∧
    (∀ b len pos last t cap cur simple,
      cur ≤ (parse_array_loop b len pos last t cap cur simple fuel).2.1) := by
  induction fuel with
  | zero => refine ⟨?_, ?_, ?_, ?_, ?_⟩ <;> intros <;> exact Nat.le_refl _
  | succ n ih =>
    obtain ⟨ihv, iho, ihol, iha, ihal⟩ := ih
    refine ⟨?_, ?_, ?_, ?_, ?_⟩
    · intro b len pos t cap cur simple
      rw [parse_value]
      dsimp only
      repeat' split
      all_goals first
        | exact Nat.le_refl _
        | exact Nat.le_succ _
        | exact le_trans (Nat.le_succ _) (iho _ _ _ _ _ _ _)
        | exact le_trans (Nat.le_succ _) (iha _ _ _ _ _ _ _)
    · intro b len pos t cap cur simple
      rw [parse_object]
      exact ihol _ _ _ _ _ _ _ _
    · intro b len pos last t cap cur simple
      rw [parse_object_loop]
      dsimp only
      repeat' split
      all_goals first
        | exact Nat.le_refl _
        | exact ihol _ _ _ _ _ _ _ _
        | exact ihv _ _ _ _ _ _ _
        | exact le_trans (ihv _ _ _ _ _ _ _) (ihol _ _ _ _ _ _ _ _)
    · intro b len pos t cap cur simple
      rw [parse_array]
      try dsimp only
      repeat' split
      all_goals first
        | exact Nat.le_refl _
        | exact ihal _ _ _ _ _ _ _ _
    · intro b len pos last t cap cur simple
      rw [parse_array_loop]
      dsimp only
      repeat' split
      all_goals first
        | exact Nat.le_refl _
        | exact ihv _ _ _ _ _ _ _
        | exact le_trans (ihv _ _ _ _ _ _ _) (ihal _ _ _ _ _ _ _ _)

/-! ## Field-preservation write lemmas -/

theorem set_token_id_type (t : Nat → json_token) (cap c i l j : Nat) :
    ((set_token_id t cap c i l) j).type = (t j).type := by
  unfold set_token_id write_token
  split
  · rename_i h
    rw [h.2]
  · rfl

theorem set_token_sibling_type (t : Nat → json_token) (cap idx v j : Nat) :
    ((set_token_sibling t cap idx v) j).type = (t j).type := by
  unfold set_token_sibling write_token
  split
  · rename_i h
    rw [h.2]
  · rfl

theorem set_token_id_value (t : Nat → json_token) (cap c i l j : Nat) :
    ((set_token_id t cap c i l) j).value = (t j).value := by
  unfold set_token_id write_token
  split
  · rename_i h
    rw [h.2]
  · rfl

theorem set_token_id_value_length (t : Nat → json_token) (cap c i l j : Nat) :
    ((set_token_id t cap c i l) j).value_length = (t j).value_length := by
  unfold set_token_id write_token
  split
  · rename_i h
    rw [h.2]
  · rfl

theorem set_token_id_child (t : Nat → json_token) (cap c i l j : Nat) :
    ((set_token_id t cap c i l) j).child = (t j).child := by
  unfold set_token_id write_token
  split
  · rename_i h
    rw [h.2]
  · rfl

theorem set_token_id_sibling (t : Nat → json_token) (cap c i l j : Nat) :
    ((set_token_id t cap c i l) j).sibling = (t j).sibling := by
  unfold set_token_id write_token
  split
  · rename_i h
    rw [h.2]
  · rfl

theorem set_token_sibling_id (t : Nat → json_token) (cap idx v j : Nat) :
    ((set_token_sibling t cap idx v) j).id = (t j).id := by
  unfold set_token_sibling write_token
  split
  · rename_i h
    rw [h.2]
  · rfl

theorem set_token_sibling_id_length (t : Nat → json_token) (cap idx v j : Nat) :
    ((set_token_sibling t cap idx v) j).id_length = (t j).id_length := by
  unfold set_token_sibling write_token
  split
  · rename_i h
    rw [h.2]
  · rfl

theorem set_token_sibling_value (t : Nat → json_token) (cap idx v j : Nat) :
    ((set_token_sibling t cap idx v) j).value = (t j).value := by
  unfold set_token_sibling write_token
  split
  · rename_i h
    rw [h.2]
  · rfl

theorem set_token_sibling_value_length (t : Nat → json_token) (cap idx v j : Nat) :
    ((set_token_sibling t cap idx v) j).value_length = (t j).value_length := by
  unfold set_token_sibling write_token
  split
  · rename_i h
    rw [h.2]
  · rfl

theorem set_token_sibling_child (t : Nat → json_token) (cap idx v j : Nat) :
    ((set_token_sibling t cap idx v) j).child = (t j).child := by
  unfold set_token_sibling write_token
  split
  · rename_i h
    rw [h.2]
  · rfl

theorem set_token_sibling_sibling (t : Nat → json_token) (cap idx v j : Nat) :
    ((set_token_sibling t cap idx v) j).sibling
      = if idx < cap ∧ j = idx then v else (t j).sibling := by
  unfold set_token_sibling write_token
  split
  · rfl
  · rfl

theorem set_token_primitive_self (t : Nat → json_token) (cap c : Nat)
    (ty : json_type) (v vl : Nat) (h : c < cap) :
    set_token_primitive t cap c ty v vl c =
      { t c with type := ty, child := 0, sibling := 0,
                 value := v % UINT_MOD, value_length := vl % UINT_MOD } := by
  unfold set_token_primitive write_token
  simp [h]

theorem set_token_complex_self (t : Nat → json_token) (cap c : Nat)
    (ty : json_type) (h : c < cap) :
    set_token_complex t cap c ty c =
      { t c with type := ty, child := c + 1, sibling := 0,
                 value := 0, value_length := 0 } := by
  unfold set_token_complex write_token
  simp [h]

theorem set_token_id_self (t : Nat → json_token) (cap c i l : Nat) (h : c < cap) :
    set_token_id t cap c i l c =
      { t c with id := i % UINT_MOD, id_length := l % UINT_MOD } := by
  unfold set_token_id write_token
  simp [h]

theorem set_token_primitive_of_ne (t : Nat → json_token) (cap c : Nat)
    (ty : json_type) (v vl j : Nat) (h : j ≠ c) :
    set_token_primitive t cap c ty v vl j = t j :=
  write_token_of_ne _ _ _ _ _ h

theorem set_token_complex_of_ne (t : Nat → json_token) (cap c : Nat)
    (ty : json_type) (j : Nat) (h : j ≠ c) :
    set_token_complex t cap c ty j = t j :=
  write_token_of_ne _ _ _ _ _ h

theorem set_token_id_of_ne (t : Nat → json_token) (cap c i l j : Nat) (h : j ≠ c) :
    set_token_id t cap c i l j = t j :=
  write_token_of_ne _ _ _ _ _ h

theorem set_token_sibling_of_ne (t : Nat → json_token) (cap idx v j : Nat) (h : j ≠ idx) :
    set_token_sibling t cap idx v j = t j :=
  write_token_of_ne _ _ _ _ _ h

/-! ## Type changes only happen at or above the entry token index -/

/-- Tokens below the entry `current` never have their `type` changed: the
only type-writing helpers are invoked at the running index, which never
decreases; the sibling and key-span writes at lower indices preserve
`type`. -/
theorem parse_type_frame_below (fuel : Nat) :
    (∀ b len pos t cap cur simple j, j < cur →
      (((parse_value b len pos t cap cur simple fuel).2.2) j).type = (t j).type) ∧
    (∀ b len pos t cap cur simple j, j < cur →
      (((parse_object b len pos t cap cur simple fuel).2.2) j).type = (t j).type) ∧
    (∀ b len pos last t cap cur simple j, j < cur →
      (((parse_object_loop b len pos last t cap cur simple fuel).2.2) j).type = (t j).type) ∧
    (∀ b len pos t cap cur simple j, j < cur →
      (((parse_array b len pos t cap cur simple fuel).2.2) j).type = (t j).type) ∧
    (∀ b len pos last t cap cur simple j, j < cur →
      (((parse_array_loop b len pos last t cap cur simple fuel).2.2) j).type = (t j).type) := by
  induction fuel with
  | zero => refine ⟨?_, ?_, ?_, ?_, ?_⟩ <;> intros <;> rfl
  | succ n ih =>
    obtain ⟨ihv, iho, ihol, iha, ihal⟩ := ih
    refine ⟨?_, ?_, ?_, ?_, ?_⟩
    · intro b len pos t cap cur simple j hj
      have Wp : ∀ t' ty v vl, set_token_primitive t' cap cur ty v vl j = t' j :=
        fun t' ty v vl => set_token_primitive_of_ne t' cap cur ty v vl j (by omega)
      have Wc : ∀ t' ty, set_token_complex t' cap cur ty j = t' j :=
        fun t' ty => set_token_complex_of_ne t' cap cur ty j (by omega)
      have O1 : ∀ b len pos t simple,
          (((parse_object b len pos t cap (cur + 1) simple n).2.2) j).type = (t j).type :=
        fun b len pos t simple => iho b len pos t cap (cur + 1) simple j (by omega)
      have A1 : ∀ b len pos t simple,
          (((parse_array b len pos t cap (cur + 1) simple n).2.2) j).type = (t j).type :=
        fun b len pos t simple => iha b len pos t cap (cur + 1) simple j (by omega)
      rw [parse_value]
      dsimp only
      repeat' split
      all_goals simp only [O1, A1, Wp, Wc]
    · intro b len pos t cap cur simple j hj
      rw [parse_object]
      exact ihol _ _ _ _ _ _ _ _ _ hj
    · intro b len pos last t cap cur simple j hj
      have Vc : ∀ b len pos t simple,
          (((parse_value b len pos t cap cur simple n).2.2) j).type = (t j).type :=
        fun b len pos t simple => ihv b len pos t cap cur simple j hj
      have OLc : ∀ b len pos last t simple,
          (((parse_object_loop b len pos last t cap cur simple n).2.2) j).type = (t j).type :=
        fun b len pos last t simple => ihol b len pos last t cap cur simple j hj
      have Mv : ∀ b len pos t simple, cur ≤ (parse_value b len pos t cap cur simple n).2.1 :=
        fun b len pos t simple => (parse_cur_mono n).1 b len pos t cap cur simple
      rw [parse_object_loop]
      dsimp only
      repeat' split
      all_goals first
        | rfl
        | simp only [Vc, OLc, set_token_id_type, set_token_sibling_type]
        | (refine Eq.trans (ihol _ _ _ _ _ _ _ _ _
             (Nat.lt_of_lt_of_le hj (Mv _ _ _ _ _))) ?_
           simp only [Vc, set_token_id_type, set_token_sibling_type])
    · intro b len pos t cap cur simple j hj
      rw [parse_array]
      try dsimp only
      repeat' split
      all_goals first
        | rfl
        | exact ihal _ _ _ _ _ _ _ _ _ hj
    · intro b len pos last t cap cur simple j hj
      have Vc : ∀ b len pos t simple,
          (((parse_value b len pos t cap cur simple n).2.2) j).type = (t j).type :=
        fun b len pos t simple => ihv b len pos t cap cur simple j hj
      have Mv : ∀ b len pos t simple, cur ≤ (parse_value b len pos t cap cur simple n).2.1 :=
        fun b len pos t simple => (parse_cur_mono n).1 b len pos t cap cur simple
      rw [parse_array_loop]
      dsimp only
      repeat' split
      all_goals first
        | rfl
        | simp only [Vc, set_token_id_type, set_token_sibling_type]
        | (refine Eq.trans (ihal _ _ _ _ _ _ _ _ _
             (Nat.lt_of_lt_of_le hj (Mv _ _ _ _ _))) ?_
           simp only [Vc, set_token_id_type, set_token_sibling_type])

/-- On success, `parse_value` has written a non-`JSON_UNDEFINED` type into
slot `cur` (when within capacity). -/
theorem parse_value_sets_type (b : Nat → Char) (len pos : Nat) (t : Nat → json_token)
    (cap cur : Nat) (simple : Bool) (fuel : Nat)
    (hs : (parse_value b len pos t cap cur simple fuel).1 ≠ none)
    (hcap : cur < cap) :
    (((parse_value b len pos t cap cur simple fuel).2.2) cur).type
      ≠ json_type.JSON_UNDEFINED := by
  match fuel with
  | 0 => exact absurd rfl hs
  | n + 1 =>
    rw [parse_value] at hs ⊢
    dsimp only at hs ⊢
    revert hs
    repeat' split
    all_goals intro hs
    all_goals first
      | exact absurd rfl hs
      | (rw [(parse_type_frame_below n).2.1 _ _ _ _ _ _ _ _ (Nat.lt_succ_self cur),
          set_token_complex_self _ _ _ _ hcap]
         simp)
      | (rw [(parse_type_frame_below n).2.2.2.1 _ _ _ _ _ _ _ _ (Nat.lt_succ_self cur),
          set_token_complex_self _ _ _ _ hcap]
         simp)
      | (dsimp only
         rw [set_token_primitive_self _ _ _ _ _ _ hcap]
         simp)

/-! ## Capacity independence of the observable results (C1) -/

/-- The observable results (end position and logical token index) of every
parser function do not depend on the output array or its capacity: any run
has the same observables as the run with capacity 0. -/
theorem parse_obs_cap_indep (fuel : Nat) :
    (∀ b len pos t cap cur simple,
      obs (parse_value b len pos t cap cur simple fuel)
        = obs (parse_value b len pos zero_tokens 0 cur simple fuel)) ∧
    (∀ b len pos t cap cur simple,
      obs (parse_object b len pos t cap cur simple fuel)
        = obs (parse_object b len pos zero_tokens 0 cur simple fuel)) ∧
    (∀ b len pos last t cap cur simple,
      (last = 0 ∨ is_valid_token t cap last = true) →
      obs (parse_object_loop b len pos last t cap cur simple fuel)
        = obs (parse_object_loop b len pos last zero_tokens 0 cur simple fuel)) ∧
    (∀ b len pos t cap cur simple,
      obs (parse_array b len pos t cap cur simple fuel)
        = obs (parse_array b len pos zero_tokens 0 cur simple fuel)) ∧
    (∀ b len pos last t cap cur simple,
      obs (parse_array_loop b len pos last t cap cur simple fuel)
        = obs (parse_array_loop b len pos last zero_tokens 0 cur simple fuel)) := by
  induction fuel with
  | zero => refine ⟨?_, ?_, ?_, ?_, ?_⟩ <;> intros <;> rfl
  | succ n ih =>
    obtain ⟨ihv, iho, ihol, iha, ihal⟩ := ih
    refine ⟨?_, ?_, ?_, ?_, ?_⟩
    · -- parse_value
      intro b len pos t cap cur simple
      rw [parse_value]
      rw [parse_value]
      dsimp only
      generalize skip_whitespace b len pos = p0
      generalize parse_number b len (p0 + 1 - 1) = num
      generalize parse_string b len (if b p0 = '"' then p0 + 1 else p0 + 1 - 1) simple = str
      by_cases h0 : p0 < len
      · rw [if_pos h0, if_pos h0]
        by_cases h1 : b p0 = '{'
        · rw [if_pos h1, if_pos h1]
          exact (iho _ _ _ _ _ _ _).trans (iho _ _ _ _ _ _ _).symm
        · rw [if_neg h1, if_neg h1]
          by_cases h2 : b p0 = '['
          · rw [if_pos h2, if_pos h2]
            exact (iha _ _ _ _ _ _ _).trans (iha _ _ _ _ _ _ _).symm
          · rw [if_neg h2, if_neg h2]
            by_cases h3 : b p0 = '-' ∨ ('0' ≤ b p0 ∧ b p0 ≤ '9') ∨ b p0 = '.'
            · rw [if_pos h3, if_pos h3]
              rcases num with _ | string <;> rfl
            · rw [if_neg h3, if_neg h3]
              by_cases h4 : b p0 = 't' ∧ len - (p0 + 1) ≥ 4 ∧ b (p0 + 1) = 'r' ∧
                  b (p0 + 1 + 1) = 'u' ∧ b (p0 + 1 + 2) = 'e' ∧
                  is_token_delimiter (b (p0 + 1 + 3)) = true
              · rw [if_pos h4, if_pos h4]
                rfl
              · rw [if_neg h4, if_neg h4]
                by_cases h5 : b p0 = 'f' ∧ len - (p0 + 1) ≥ 5 ∧ b (p0 + 1) = 'a' ∧
                    b (p0 + 1 + 1) = 'l' ∧ b (p0 + 1 + 2) = 's' ∧ b (p0 + 1 + 3) = 'e' ∧
                    is_token_delimiter (b (p0 + 1 + 4)) = true
                · rw [if_pos h5, if_pos h5]
                  rfl
                · rw [if_neg h5, if_neg h5]
                  by_cases h6 : (b p0 = 't' ∨ b p0 = 'f') ∧ ¬ simple = true
                  · rw [if_pos h6, if_pos h6]
                    rfl
                  · rw [if_neg h6, if_neg h6]
                    by_cases h7 : b p0 ≠ '"' ∧ ¬ simple = true
                    · rw [if_pos h7, if_pos h7]
                      rfl
                    · rw [if_neg h7, if_neg h7]
                      rcases str with _ | string <;> rfl
      · rw [if_neg h0, if_neg h0]
        rfl
    · -- parse_object
      intro b len pos t cap cur simple
      rw [parse_object]
      rw [parse_object]
      exact (ihol _ _ _ _ _ _ _ _ (Or.inl rfl)).trans
        (ihol _ _ _ _ _ _ _ _ (Or.inl rfl)).symm
    · -- parse_object_loop
      intro b len pos last t cap cur simple hlast
      have hvalidL : last ≠ 0 → is_valid_token t cap last = true := by
        intro hne
        rcases hlast with h | h
        · exact absurd h hne
        · exact h
      have hvalidR : ∀ tz last, is_valid_token tz 0 last = true := by
        intro tz l
        simp [is_valid_token]
      rw [parse_object_loop]
      rw [parse_object_loop]
      dsimp only
      by_cases g0 : pos < len
      · rw [if_pos g0, if_pos g0]
        by_cases g1 : b pos = '}'
        · rw [if_pos g1, if_pos g1]
          have hL : ¬ (last ≠ 0 ∧ ¬ is_valid_token t cap last = true) := by
            rintro ⟨hne, hnv⟩
            exact hnv (hvalidL hne)
          have hR : ¬ (last ≠ 0 ∧ ¬ is_valid_token zero_tokens 0 last = true) := by
            rintro ⟨hne, hnv⟩
            exact hnv (hvalidR _ _)
          rw [if_neg hL, if_neg hR]
          rfl
        · rw [if_neg g1, if_neg g1]
          by_cases g2 : b pos = ','
          · rw [if_pos g2, if_pos g2]
            by_cases g2a : last = 0
            · rw [if_pos (Or.inl g2a), if_pos (Or.inl g2a)]
              rfl
            · have hL : ¬ (last = 0 ∨ ¬ is_valid_token t cap last = true) := by
                rintro (h | h)
                · exact g2a h
                · exact h (hvalidL g2a)
              have hR : ¬ (last = 0 ∨ ¬ is_valid_token zero_tokens 0 last = true) := by
                rintro (h | h)
                · exact g2a h
                · exact h (hvalidR _ _)
              rw [if_neg hL, if_neg hR]
              exact (ihol _ _ _ _ _ _ _ _ (Or.inl rfl)).trans
                (ihol _ _ _ _ _ _ _ _ (Or.inl rfl)).symm
          · rw [if_neg g2, if_neg g2]
            by_cases g3 : last ≠ 0
            · rw [if_pos g3, if_pos g3]
              rfl
            · rw [if_neg g3, if_neg g3]
              by_cases g4 : b pos ≠ '"' ∧ ¬ simple = true
              · rw [if_pos g4, if_pos g4]
                rfl
              · rw [if_neg g4, if_neg g4]
                generalize hps : (if b pos = '"' then pos + 1 else pos + 1 - 1) = ps
                generalize parse_string b len ps simple = str
                rcases str with _ | string
                · rfl
                · dsimp only
                  generalize (if ¬ simple = true ∨ ps + string < len ∧ b (ps + string) = '"'
                    then string + 1 else string) = s1
                  generalize skip_whitespace b len (ps + s1) = pa
                  by_cases g5 : b pa ≠ ':' ∧ (¬ simple = true ∨ b pa ≠ '=')
                  · rw [if_pos g5, if_pos g5]
                    rfl
                  · rw [if_neg g5, if_neg g5]
                    have h12 := (ihv b len (pa + 1) (set_token_id t cap cur ps string)
                        cap cur simple).trans
                      (ihv b len (pa + 1) (set_token_id zero_tokens 0 cur ps string)
                        0 cur simple).symm
                    simp only [obs] at h12
                    rw [Prod.mk.injEq] at h12
                    obtain ⟨h1, h2⟩ := h12
                    rw [← h1, ← h2]
                    rcases hr : (parse_value b len (pa + 1)
                        (set_token_id t cap cur ps string) cap cur simple n).1 with _ | pos2
                    · rfl
                    · dsimp only
                      by_cases g6 : simple = true ∧ skip_whitespace b len pos2 < len ∧
                          b (skip_whitespace b len pos2) ≠ ',' ∧
                          b (skip_whitespace b len pos2) ≠ '}'
                      · rw [if_pos g6, if_pos g6]
                        exact (ihol _ _ _ _ _ _ _ _ (Or.inl rfl)).trans
                          (ihol _ _ _ _ _ _ _ _ (Or.inl rfl)).symm
                      · rw [if_neg g6, if_neg g6]
                        have hval : is_valid_token ((parse_value b len (pa + 1)
                            (set_token_id t cap cur ps string) cap cur simple n).2.2)
                            cap cur = true := by
                          unfold is_valid_token
                          split
                          · rename_i hcap
                            refine decide_eq_true (parse_value_sets_type _ _ _ _ _ _ _ _ ?_ hcap)
                            rw [hr]
                            simp
                          · rfl
                        exact (ihol _ _ _ _ _ _ _ _ (Or.inr hval)).trans
                          (ihol _ _ _ _ _ _ _ _ (Or.inr (hvalidR _ _))).symm
      · rw [if_neg g0, if_neg g0]
        rfl
    · -- parse_array
      intro b len pos t cap cur simple
      rw [parse_array]
      rw [parse_array]
      try dsimp only
      by_cases g0 : b (skip_whitespace b len pos) = ']'
      · rw [if_pos g0, if_pos g0]
        rfl
      · rw [if_neg g0, if_neg g0]
        exact (ihal _ _ _ _ _ _ _ _).trans (ihal _ _ _ _ _ _ _ _).symm
    · -- parse_array_loop
      intro b len pos last t cap cur simple
      rw [parse_array_loop]
      rw [parse_array_loop]
      dsimp only
      by_cases g0 : pos < len
      · rw [if_pos g0, if_pos g0]
        have h12 := (ihv b len pos (set_token_id t cap cur 0 0) cap cur simple).trans
          (ihv b len pos (set_token_id zero_tokens 0 cur 0 0) 0 cur simple).symm
        simp only [obs] at h12
        rw [Prod.mk.injEq] at h12
        obtain ⟨h1, h2⟩ := h12
        rw [← h1, ← h2]
        rcases hr : (parse_value b len pos
            (set_token_id t cap cur 0 0) cap cur simple n).1 with _ | pos2
        · rfl
        · dsimp only
          by_cases g1 : b (skip_whitespace b len pos2) = ','
          · rw [if_pos g1, if_pos g1]
            exact (ihal _ _ _ _ _ _ _ _).trans (ihal _ _ _ _ _ _ _ _).symm
          · rw [if_neg g1, if_neg g1]
            by_cases g2 : b (skip_whitespace b len pos2) = ']'
            · rw [if_pos g2, if_pos g2]
              rfl
            · rw [if_neg g2, if_neg g2]
              by_cases g3 : ¬ simple = true
              · rw [if_pos g3, if_pos g3]
                rfl
              · rw [if_neg g3, if_neg g3]
                exact (ihal _ _ _ _ _ _ _ _).trans (ihal _ _ _ _ _ _ _ _).symm
      · rw [if_neg g0, if_neg g0]
        rfl

/-- Entry-point corollary: the final token array of `json_parse` agrees
with the initial one at every index at or above capacity. -/
theorem json_parse_frame_ge_cap (b : Nat → Char) (size : Nat) (t : Nat → json_token)
    (cap fuel : Nat) (j : Nat) (hj : cap ≤ j) :
    (json_parse b size t cap fuel).2 j = t j := by
  rw [json_parse]
  try dsimp only
  rcases hr : (parse_value b size 0
      (set_token_primitive (set_token_id t cap 0 0 0) cap 0 .JSON_UNDEFINED 0 0)
      cap 0 false fuel).1 with _ | p
  all_goals
    rw [(parse_frame_ge_cap fuel).1 _ _ _ _ _ _ _ _ hj,
      set_token_primitive_of_ge _ _ _ _ _ _ _ hj, set_token_id_of_ge _ _ _ _ _ _ hj]

/-- Entry-point corollary: the final token array of `sjson_parse` agrees
with the initial one at every index at or above capacity. -/
theorem sjson_parse_frame_ge_cap (b : Nat → Char) (size : Nat) (t : Nat → json_token)
    (cap fuel : Nat) (j : Nat) (hj : cap ≤ j) :
    (sjson_parse b size t cap fuel).2 j = t j := by
  rw [sjson_parse]
  try dsimp only
  by_cases h : skip_whitespace b size 0 < size ∧ b (skip_whitespace b size 0) ≠ '{'
  · rw [if_pos h]
    try dsimp only
    rcases hr : (parse_object b size (skip_whitespace b size 0)
        (set_token_complex (set_token_id t cap 0 0 0) cap 0 .JSON_OBJECT)
        cap 1 true fuel).1 with _ | p
    all_goals
      rw [(parse_frame_ge_cap fuel).2.1 _ _ _ _ _ _ _ _ hj,
        set_token_complex_of_ge _ _ _ _ _ hj, set_token_id_of_ge _ _ _ _ _ _ hj]
  · rw [if_neg h]
    try dsimp only
    rcases hr : (parse_value b size (skip_whitespace b size 0) t cap 0 true fuel).1 with _ | p
    all_goals rw [(parse_frame_ge_cap fuel).1 _ _ _ _ _ _ _ _ hj]

/-- Entry-point corollary: the count returned by `json_parse` does not
depend on the output array or capacity. -/
theorem json_parse_count_cap_indep (b : Nat → Char) (size : Nat)
    (t1 : Nat → json_token) (cap1 : Nat) (t2 : Nat → json_token) (cap2 : Nat)
    (fuel : Nat) :
    (json_parse b size t1 cap1 fuel).1 = (json_parse b size t2 cap2 fuel).1 := by
  rw [json_parse, json_parse]
  try dsimp only
  have hobs := ((parse_obs_cap_indep fuel).1 b size 0
      (set_token_primitive (set_token_id t1 cap1 0 0 0) cap1 0 .JSON_UNDEFINED 0 0)
      cap1 0 false).trans
    ((parse_obs_cap_indep fuel).1 b size 0
      (set_token_primitive (set_token_id t2 cap2 0 0 0) cap2 0 .JSON_UNDEFINED 0 0)
      cap2 0 false).symm
  simp only [obs] at hobs
  rw [Prod.mk.injEq] at hobs
  obtain ⟨e1, e2⟩ := hobs
  rw [← e1, ← e2]
  rcases hr : (parse_value b size 0
      (set_token_primitive (set_token_id t1 cap1 0 0 0) cap1 0 .JSON_UNDEFINED 0 0)
      cap1 0 false fuel).1 with _ | p
  · rfl
  · rfl

/-- Entry-point corollary: the count returned by `sjson_parse` does not
depend on the output array or capacity. -/
theorem sjson_parse_count_cap_indep (b : Nat → Char) (size : Nat)
    (t1 : Nat → json_token) (cap1 : Nat) (t2 : Nat → json_token) (cap2 : Nat)
    (fuel : Nat) :
    (sjson_parse b size t1 cap1 fuel).1 = (sjson_parse b size t2 cap2 fuel).1 := by
  rw [sjson_parse, sjson_parse]
  try dsimp only
  by_cases h : skip_whitespace b size 0 < size ∧ b (skip_whitespace b size 0) ≠ '{'
  · rw [if_pos h, if_pos h]
    try dsimp only
    have hobs := ((parse_obs_cap_indep fuel).2.1 b size (skip_whitespace b size 0)
        (set_token_complex (set_token_id t1 cap1 0 0 0) cap1 0 .JSON_OBJECT)
        cap1 1 true).trans
      ((parse_obs_cap_indep fuel).2.1 b size (skip_whitespace b size 0)
        (set_token_complex (set_token_id t2 cap2 0 0 0) cap2 0 .JSON_OBJECT)
        cap2 1 true).symm
    simp only [obs] at hobs
    rw [Prod.mk.injEq] at hobs
    obtain ⟨e1, e2⟩ := hobs
    rw [← e1, ← e2]
    rcases hr : (parse_object b size (skip_whitespace b size 0)
        (set_token_complex (set_token_id t1 cap1 0 0 0) cap1 0 .JSON_OBJECT)
        cap1 1 true fuel).1 with _ | p
    · rfl
    · rfl
  · rw [if_neg h, if_neg h]
    try dsimp only
    have hobs := ((parse_obs_cap_indep fuel).1 b size (skip_whitespace b size 0)
        t1 cap1 0 true).trans
      ((parse_obs_cap_indep fuel).1 b size (skip_whitespace b size 0)
        t2 cap2 0 true).symm
    simp only [obs] at hobs
    rw [Prod.mk.injEq] at hobs
    obtain ⟨e1, e2⟩ := hobs
    rw [← e1, ← e2]
    rcases hr : (parse_value b size (skip_whitespace b size 0) t1 cap1 0 true fuel).1
      with _ | p
    · rfl
    · rfl

/-- Claim C1: capacity overflow is not an error.  (1) Token slots at
index at or above the capacity are never written, by either entry point.
(2) The returned count is independent of the supplied output array and
capacity (the scan and the logical token index advance identically).
(3) Concretely, `[1,2,3,4]` logically produces 5 tokens, and invoking
with capacity 3 still returns count 5, exactly as with capacity 100. -/
theorem C1_capacity_overflow :
    (∀ b size t cap fuel j, cap ≤ j →
      (json_parse b size t cap fuel).2 j = t j ∧
      (sjson_parse b size t cap fuel).2 j = t j) ∧
    (∀ b size t1 cap1 t2 cap2 fuel,
      (json_parse b size t1 cap1 fuel).1 = (json_parse b size t2 cap2 fuel).1 ∧
      (sjson_parse b size t1 cap1 fuel).1 = (sjson_parse b size t2 cap2 fuel).1) ∧
    ((json_parse (strbuf input_arr4) input_arr4.length zero_tokens 3 64).1 = 5 ∧
     (json_parse (strbuf input_arr4) input_arr4.length zero_tokens 100 64).1 = 5) := by
  refine ⟨?_, ?_, ?_, ?_⟩
  · intro b size t cap fuel j hj
    exact ⟨json_parse_frame_ge_cap b size t cap fuel j hj,
      sjson_parse_frame_ge_cap b size t cap fuel j hj⟩
  · intro b size t1 cap1 t2 cap2 fuel
    exact ⟨json_parse_count_cap_indep b size t1 cap1 t2 cap2 fuel,
      sjson_parse_count_cap_indep b size t1 cap1 t2 cap2 fuel⟩
  · decide
  · decide

/-- Claim C1 (witness): the frame and count-independence statements at a
concrete input, with the bound hypothesis discharged. -/
theorem C1_capacity_overflow_witness :
    ((json_parse (strbuf input_a1) 3 zero_tokens 2 64).2 5 = zero_tokens 5 ∧
     (sjson_parse (strbuf input_a1) 3 zero_tokens 2 64).2 5 = zero_tokens 5) ∧
    (json_parse (strbuf input_arr4) input_arr4.length zero_tokens 3 64).1
      = (json_parse (strbuf input_arr4) input_arr4.length garbage_tokens 100 64).1 :=
  ⟨C1_capacity_overflow.1 (strbuf input_a1) 3 zero_tokens 2 64 5 (by decide),
   (C1_capacity_overflow.2.1 (strbuf input_arr4) input_arr4.length
      zero_tokens 3 garbage_tokens 100 64).1⟩

/-! ## Scanner bounds and invariant-preservation helpers -/

/-- The string scanner never scans past the end of the buffer: a scanned
length `s` satisfies `start + s ≤ len`. -/
theorem parse_string_go_bound (b : Nat → Char) (len : Nat) (simple : Bool) :
    ∀ k start pos s, start ≤ pos → pos ≤ len →
      parse_string_go b len simple start k pos = some s → start + s ≤ len := by
  intro k
  induction k with
  | zero =>
    intro start pos s h1 h2 h3
    rw [parse_string_go] at h3
    split at h3
    · simp only [Option.some.injEq] at h3
      omega
    · exact absurd h3 (by simp)
  | succ n ih =>
    intro start pos s h1 h2 h3
    rw [parse_string_go] at h3
    dsimp only at h3
    by_cases hA : pos < len
    · rw [if_pos hA] at h3
      by_cases hB : simple = true ∧
          (is_token_delimiter (b pos) = true ∨ b pos = '=' ∨ b pos = ':')
      · rw [if_pos hB] at h3
        simp only [Option.some.injEq] at h3
        omega
      · rw [if_neg hB] at h3
        by_cases hC : b pos = '"'
        · rw [if_pos hC] at h3
          simp only [Option.some.injEq] at h3
          omega
        · rw [if_neg hC] at h3
          by_cases hD : b pos = '\\' ∧ pos + 1 < len
          · rw [if_pos hD] at h3
            obtain ⟨hD1, hD2⟩ := hD
            by_cases hE : b (pos + 1) = '"' ∨ b (pos + 1) = '/' ∨ b (pos + 1) = '\\' ∨
                b (pos + 1) = 'b' ∨ b (pos + 1) = 'f' ∨ b (pos + 1) = 'r' ∨
                b (pos + 1) = 'n' ∨ b (pos + 1) = 't'
            · rw [if_pos hE] at h3
              exact ih start (pos + 1) s (by omega) (by omega) h3
            · rw [if_neg hE] at h3
              by_cases hF : b (pos + 1) = 'u'
              · rw [if_pos hF] at h3
                by_cases hG1 : ¬ is_hex_digit (b (pos + 2)) = true
                · rw [if_pos hG1] at h3
                  exact absurd h3 (by simp)
                · rw [if_neg hG1] at h3
                  by_cases hH1 : pos + 2 < len
                  · rw [if_neg (not_not_intro hH1)] at h3
                    by_cases hG2 : ¬ is_hex_digit (b (pos + 3)) = true
                    · rw [if_pos hG2] at h3
                      exact absurd h3 (by simp)
                    · rw [if_neg hG2] at h3
                      by_cases hH2 : pos + 3 < len
                      · rw [if_neg (not_not_intro hH2)] at h3
                        by_cases hG3 : ¬ is_hex_digit (b (pos + 4)) = true
                        · rw [if_pos hG3] at h3
                          exact absurd h3 (by simp)
                        · rw [if_neg hG3] at h3
                          by_cases hH3 : pos + 4 < len
                          · rw [if_neg (not_not_intro hH3)] at h3
                            by_cases hG4 : ¬ is_hex_digit (b (pos + 5)) = true
                            · rw [if_pos hG4] at h3
                              exact absurd h3 (by simp)
                            · rw [if_neg hG4] at h3
                              exact ih start (pos + 5) s (by omega) (by omega) h3
                          · rw [if_pos hH3] at h3
                            exact ih start (pos + 4) s (by omega) (by omega) h3
                      · rw [if_pos hH2] at h3
                        exact ih start (pos + 3) s (by omega) (by omega) h3
                  · rw [if_pos hH1] at h3
                    exact ih start (pos + 2) s (by omega) (by omega) h3
              · rw [if_neg hF] at h3
                exact absurd h3 (by simp)
          · rw [if_neg hD] at h3
            exact ih start (pos + 1) s (by omega) (by omega) h3
    · rw [if_neg hA] at h3
      split at h3
      · simp only [Option.some.injEq] at h3
        omega
      · exact absurd h3 (by simp)

/-- `parse_string` scans within the buffer. -/
theorem parse_string_bound (b : Nat → Char) (len pos : Nat) (simple : Bool) (s : Nat)
    (h2 : pos ≤ len) (h3 : parse_string b len pos simple = some s) : pos + s ≤ len :=
  parse_string_go_bound b len simple (len - pos) pos pos s (Nat.le_refl _) h2 h3

/-- The number scanner never scans past the end of the buffer. -/
theorem parse_number_go_bound (b : Nat → Char) (len : Nat) :
    ∀ k start pos d g e s, start ≤ pos → pos ≤ len →
      parse_number_go b len start k pos d g e = some s → start + s ≤ len := by
  intro k
  induction k with
  | zero =>
    intro start pos d g e s h1 h2 h3
    rw [parse_number_go] at h3
    simp only [Option.some.injEq] at h3
    omega
  | succ n ih =>
    intro start pos d g e s h1 h2 h3
    rw [parse_number_go] at h3
    dsimp only at h3
    by_cases hA : pos < len
    · rw [if_pos hA] at h3
      by_cases hB : is_token_delimiter (b pos) = true
      · rw [if_pos hB] at h3
        simp only [Option.some.injEq] at h3
        omega
      · rw [if_neg hB] at h3
        by_cases hC : b pos = '-' ∧ ¬ (start = pos)
        · rw [if_pos hC] at h3
          exact absurd h3 (by simp)
        · rw [if_neg hC] at h3
          by_cases hD : b pos = '.'
          · rw [if_pos hD] at h3
            by_cases hD2 : d = true ∨ e = true
            · rw [if_pos hD2] at h3
              exact absurd h3 (by simp)
            · rw [if_neg hD2] at h3
              exact ih start (pos + 1) true g e s (by omega) (by omega) h3
          · rw [if_neg hD] at h3
            by_cases hE : b pos = 'e' ∨ b pos = 'E'
            · rw [if_pos hE] at h3
              by_cases hE2 : ¬ g = true ∨ e = true
              · rw [if_pos hE2] at h3
                exact absurd h3 (by simp)
              · rw [if_neg hE2] at h3
                by_cases hE3 : pos + 1 < len ∧ (b (pos + 1) = '+' ∨ b (pos + 1) = '-')
                · rw [if_pos hE3] at h3
                  exact ih start (pos + 1 + 1) d g true s (by omega) (by omega) h3
                · rw [if_neg hE3] at h3
                  exact ih start (pos + 1) d g true s (by omega) (by omega) h3
            · rw [if_neg hE] at h3
              by_cases hF : b pos < '0' ∨ b pos > '9'
              · rw [if_pos hF] at h3
                exact absurd h3 (by simp)
              · rw [if_neg hF] at h3
                exact ih start (pos + 1) d true e s (by omega) (by omega) h3
    · rw [if_neg hA] at h3
      simp only [Option.some.injEq] at h3
      omega

/-- `parse_number` scans within the buffer. -/
theorem parse_number_bound (b : Nat → Char) (len pos s : Nat)
    (h2 : pos ≤ len) (h3 : parse_number b len pos = some s) : pos + s ≤ len :=
  parse_number_go_bound b len (len - pos) pos pos false false false s (Nat.le_refl _) h2 h3

/-! Preservation lemmas for the tree-shape and span invariants -/

theorem tree_shape_ok_mono (t : Nat → json_token) (cap n m : Nat)
    (h : tree_shape_ok t cap n) (hm : m ≤ n) : tree_shape_ok t cap m :=
  fun i hi hic => h i (by omega) hic

theorem tree_shape_ok_set_id (t : Nat → json_token) (cap c i l n : Nat)
    (h : tree_shape_ok t cap n) : tree_shape_ok (set_token_id t cap c i l) cap n := by
  intro j hj hjc
  rw [set_token_id_type, set_token_id_child, set_token_id_sibling]
  exact h j hj hjc

theorem tree_shape_ok_set_sibling (t : Nat → json_token) (cap idx v n : Nat)
    (h : tree_shape_ok t cap n) (hv : idx < v) :
    tree_shape_ok (set_token_sibling t cap idx v) cap n := by
  intro j hj hjc
  refine ⟨?_, ?_⟩
  · rw [set_token_sibling_type, set_token_sibling_child]
    exact (h j hj hjc).1
  · rw [set_token_sibling_sibling]
    split
    · rename_i hc
      right
      rw [hc.2]
      exact hv
    · exact (h j hj hjc).2

theorem tree_shape_ok_extend_primitive (t : Nat → json_token) (cap cur : Nat)
    (ty : json_type) (v vl : Nat)
    (h : tree_shape_ok t cap cur)
    (hty : ty ≠ .JSON_OBJECT ∧ ty ≠ .JSON_ARRAY) :
    tree_shape_ok (set_token_primitive t cap cur ty v vl) cap (cur + 1) := by
  intro j hj hjc
  rcases Nat.lt_or_ge j cur with hlt | hge
  · rw [show set_token_primitive t cap cur ty v vl j = t j from
      set_token_primitive_of_ne _ _ _ _ _ _ _ (by omega)]
    exact h j hlt hjc
  · have hje : j = cur := by omega
    subst hje
    rw [set_token_primitive_self _ _ _ _ _ _ hjc]
    exact ⟨fun hc => absurd hc (by rcases hty with ⟨h1, h2⟩; rintro (h | h) <;> simp_all),
      Or.inl rfl⟩

theorem tree_shape_ok_extend_complex (t : Nat → json_token) (cap cur : Nat)
    (ty : json_type)
    (h : tree_shape_ok t cap cur) :
    tree_shape_ok (set_token_complex t cap cur ty) cap (cur + 1) := by
  intro j hj hjc
  rcases Nat.lt_or_ge j cur with hlt | hge
  · rw [show set_token_complex t cap cur ty j = t j from
      set_token_complex_of_ne _ _ _ _ _ (by omega)]
    exact h j hlt hjc
  · have hje : j = cur := by omega
    subst hje
    rw [set_token_complex_self _ _ _ _ hjc]
    exact ⟨fun _ => rfl, Or.inl rfl⟩

theorem spans_ok_mono (t : Nat → json_token) (len cap n m : Nat)
    (h : spans_ok t len cap n) (hm : m ≤ n) : spans_ok t len cap m :=
  fun i hi hic => h i (by omega) hic

theorem spans_ok_set_sibling (t : Nat → json_token) (len cap idx v n : Nat)
    (h : spans_ok t len cap n) : spans_ok (set_token_sibling t cap idx v) len cap n := by
  intro j hj hjc
  rw [set_token_sibling_id, set_token_sibling_id_length, set_token_sibling_value,
    set_token_sibling_value_length]
  exact h j hj hjc

theorem spans_ok_set_id_at (t : Nat → json_token) (len cap c i l n : Nat)
    (h : spans_ok t len cap n) (hn : n ≤ c) :
    spans_ok (set_token_id t cap c i l) len cap n := by
  intro j hj hjc
  rw [show set_token_id t cap c i l j = t j from set_token_id_of_ne _ _ _ _ _ _ (by omega)]
  exact h j hj hjc

theorem spans_ok_extend_primitive (t : Nat → json_token) (len cap cur : Nat)
    (ty : json_type) (v vl : Nat)
    (h : spans_ok t len cap cur)
    (hid : cur < cap → (t cur).id + (t cur).id_length ≤ len)
    (hv : v + vl ≤ len) :
    spans_ok (set_token_primitive t cap cur ty v vl) len cap (cur + 1) := by
  intro j hj hjc
  rcases Nat.lt_or_ge j cur with hlt | hge
  · rw [show set_token_primitive t cap cur ty v vl j = t j from
      set_token_primitive_of_ne _ _ _ _ _ _ _ (by omega)]
    exact h j hlt hjc
  · have hje : j = cur := by omega
    subst hje
    rw [set_token_primitive_self _ _ _ _ _ _ hjc]
    exact ⟨hid hjc,
      le_trans (Nat.add_le_add (Nat.mod_le _ _) (Nat.mod_le _ _)) hv⟩

theorem spans_ok_extend_complex (t : Nat → json_token) (len cap cur : Nat)
    (ty : json_type)
    (h : spans_ok t len cap cur)
    (hid : cur < cap → (t cur).id + (t cur).id_length ≤ len) :
    spans_ok (set_token_complex t cap cur ty) len cap (cur + 1) := by
  intro j hj hjc
  rcases Nat.lt_or_ge j cur with hlt | hge
  · rw [show set_token_complex t cap cur ty j = t j from
      set_token_complex_of_ne _ _ _ _ _ (by omega)]
    exact h j hlt hjc
  · have hje : j = cur := by omega
    subst hje
    rw [set_token_complex_self _ _ _ _ hjc]
    refine ⟨hid hjc, ?_⟩
    dsimp only
    omega

theorem set_token_id_id_span (t : Nat → json_token) (cap c i l : Nat) (hc : c < cap) :
    (set_token_id t cap c i l c).id + (set_token_id t cap c i l c).id_length
      ≤ i + l := by
  rw [set_token_id_self _ _ _ _ _ hc]
  exact Nat.add_le_add (Nat.mod_le _ _) (Nat.mod_le _ _)

/-! ## Success invariants of the recursive parsers (claims C8, C10) -/


/-- On success, every parser function preserves and extends the token tree
shape invariant (complex child = own index + 1, sibling 0 or greater than
holder) and the span containment invariant, advances the token index
monotonically, and never touches slot 0 when entered above it.  The shape
and span conclusions each depend only on the corresponding precondition. -/
theorem parse_success_invariants (fuel : Nat) :
    (∀ b len pos t cap cur simple,
      (parse_value b len pos t cap cur simple fuel).1 ≠ none →
      (tree_shape_ok t cap cur →
        tree_shape_ok (parse_value b len pos t cap cur simple fuel).2.2 cap
          (parse_value b len pos t cap cur simple fuel).2.1) ∧
        (spans_ok t len cap cur →
          (cur < cap → (t cur).id + (t cur).id_length ≤ len) →
          spans_ok (parse_value b len pos t cap cur simple fuel).2.2 len cap
            (parse_value b len pos t cap cur simple fuel).2.1) ∧
        cur + 1 ≤ (parse_value b len pos t cap cur simple fuel).2.1 ∧
        (1 ≤ cur → (parse_value b len pos t cap cur simple fuel).2.2 0 = t 0)) ∧
    (∀ b len pos t cap cur simple, 1 ≤ cur →
      (parse_object b len pos t cap cur simple fuel).1 ≠ none →
      (tree_shape_ok t cap cur →
        tree_shape_ok (parse_object b len pos t cap cur simple fuel).2.2 cap
          (parse_object b len pos t cap cur simple fuel).2.1) ∧
        (spans_ok t len cap cur →
          spans_ok (parse_object b len pos t cap cur simple fuel).2.2 len cap
            (parse_object b len pos t cap cur simple fuel).2.1) ∧
        cur ≤ (parse_object b len pos t cap cur simple fuel).2.1 ∧
        (parse_object b len pos t cap cur simple fuel).2.2 0 = t 0) ∧
    (∀ b len pos last t cap cur simple, 1 ≤ cur →
      (last = 0 ∨ (0 < last ∧ last < cur)) →
      (parse_object_loop b len pos last t cap cur simple fuel).1 ≠ none →
      (tree_shape_ok t cap cur →
        tree_shape_ok (parse_object_loop b len pos last t cap cur simple fuel).2.2 cap
          (parse_object_loop b len pos last t cap cur simple fuel).2.1) ∧
        (spans_ok t len cap cur →
          spans_ok (parse_object_loop b len pos last t cap cur simple fuel).2.2 len cap
            (parse_object_loop b len pos last t cap cur simple fuel).2.1) ∧
        cur ≤ (parse_object_loop b len pos last t cap cur simple fuel).2.1 ∧
        (parse_object_loop b len pos last t cap cur simple fuel).2.2 0 = t 0) ∧
    (∀ b len pos t cap cur simple, 1 ≤ cur →
      (parse_array b len pos t cap cur simple fuel).1 ≠ none →
      (tree_shape_ok t cap cur →
        tree_shape_ok (parse_array b len pos t cap cur simple fuel).2.2 cap
          (parse_array b len pos t cap cur simple fuel).2.1) ∧
        (spans_ok t len cap cur →
          spans_ok (parse_array b len pos t cap cur simple fuel).2.2 len cap
            (parse_array b len pos t cap cur simple fuel).2.1) ∧
        cur ≤ (parse_array b len pos t cap cur simple fuel).2.1 ∧
        (parse_array b len pos t cap cur simple fuel).2.2 0 = t 0) ∧
    (∀ b len pos last t cap cur simple, 1 ≤ cur →
      (last = 0 ∨ (0 < last ∧ last < cur)) →
      (parse_array_loop b len pos last t cap cur simple fuel).1 ≠ none →
      (tree_shape_ok t cap cur →
        tree_shape_ok (parse_array_loop b len pos last t cap cur simple fuel).2.2 cap
          (parse_array_loop b len pos last t cap cur simple fuel).2.1) ∧
        (spans_ok t len cap cur →
          spans_ok (parse_array_loop b len pos last t cap cur simple fuel).2.2 len cap
            (parse_array_loop b len pos last t cap cur simple fuel).2.1) ∧
        cur ≤ (parse_array_loop b len pos last t cap cur simple fuel).2.1 ∧
        (parse_array_loop b len pos last t cap cur simple fuel).2.2 0 = t 0) := by
  induction fuel with
  | zero =>
    refine ⟨?_, ?_, ?_, ?_, ?_⟩ <;> intros <;> exact absurd rfl (by assumption)
  | succ n ih =>
    obtain ⟨ihv, iho, ihol, iha, ihal⟩ := ih
    refine ⟨?_, ?_, ?_, ?_, ?_⟩
    · -- parse_value
      intro b len pos t cap cur simple
      rw [parse_value]
      dsimp only
      generalize skip_whitespace b len pos = p0
      by_cases h0 : p0 < len
      · rw [if_pos h0]
        by_cases h1 : b p0 = '{'
        · rw [if_pos h1]
          intro hs
          obtain ⟨s1, s2, s3, s4⟩ := iho b len (p0 + 1)
            (set_token_complex t cap cur .JSON_OBJECT) cap (cur + 1) simple
            (by omega) hs
          refine ⟨fun hsh => s1 (tree_shape_ok_extend_complex t cap cur _ hsh),
            fun hsp hid => s2 (spans_ok_extend_complex t len cap cur _ hsp hid),
            by omega, ?_⟩
          intro hcur
          rw [s4]
          exact set_token_complex_of_ne _ _ _ _ _ (by omega)
        · rw [if_neg h1]
          by_cases h2 : b p0 = '['
          · rw [if_pos h2]
            intro hs
            obtain ⟨s1, s2, s3, s4⟩ := iha b len (p0 + 1)
              (set_token_complex t cap cur .JSON_ARRAY) cap (cur + 1) simple
              (by omega) hs
            refine ⟨fun hsh => s1 (tree_shape_ok_extend_complex t cap cur _ hsh),
              fun hsp hid => s2 (spans_ok_extend_complex t len cap cur _ hsp hid),
              by omega, ?_⟩
            intro hcur
            rw [s4]
            exact set_token_complex_of_ne _ _ _ _ _ (by omega)
          · rw [if_neg h2]
            by_cases h3 : b p0 = '-' ∨ ('0' ≤ b p0 ∧ b p0 ≤ '9') ∨ b p0 = '.'
            · rw [if_pos h3]
              generalize hnum : parse_number b len (p0 + 1 - 1) = num
              rcases num with _ | string
              · intro hs
                exact absurd rfl hs
              · intro _
                try dsimp only
                have hb : p0 + 1 - 1 + string ≤ len :=
                  parse_number_bound b len (p0 + 1 - 1) string (by omega) hnum
                refine ⟨fun hsh => tree_shape_ok_extend_primitive t cap cur _ _ _ hsh
                    ⟨by simp, by simp⟩,
                  fun hsp hid => spans_ok_extend_primitive t len cap cur _ _ _ hsp hid hb,
                  by omega, ?_⟩
                intro hcur
                exact set_token_primitive_of_ne _ _ _ _ _ _ _ (by omega)
            · rw [if_neg h3]
              by_cases h4 : b p0 = 't' ∧ len - (p0 + 1) ≥ 4 ∧ b (p0 + 1) = 'r' ∧
                  b (p0 + 1 + 1) = 'u' ∧ b (p0 + 1 + 2) = 'e' ∧
                  is_token_delimiter (b (p0 + 1 + 3)) = true
              · rw [if_pos h4]
                intro _
                try dsimp only
                obtain ⟨-, hl4, -⟩ := h4
                refine ⟨fun hsh => tree_shape_ok_extend_primitive t cap cur _ _ _ hsh
                    ⟨by simp, by simp⟩,
                  fun hsp hid => spans_ok_extend_primitive t len cap cur _ _ _ hsp hid
                    (by omega),
                  by omega, ?_⟩
                intro hcur
                exact set_token_primitive_of_ne _ _ _ _ _ _ _ (by omega)
              · rw [if_neg h4]
                by_cases h5 : b p0 = 'f' ∧ len - (p0 + 1) ≥ 5 ∧ b (p0 + 1) = 'a' ∧
                    b (p0 + 1 + 1) = 'l' ∧ b (p0 + 1 + 2) = 's' ∧ b (p0 + 1 + 3) = 'e' ∧
                    is_token_delimiter (b (p0 + 1 + 4)) = true
                · rw [if_pos h5]
                  intro _
                  try dsimp only
                  obtain ⟨-, hl5, -⟩ := h5
                  refine ⟨fun hsh => tree_shape_ok_extend_primitive t cap cur _ _ _ hsh
                      ⟨by simp, by simp⟩,
                    fun hsp hid => spans_ok_extend_primitive t len cap cur _ _ _ hsp hid
                      (by omega),
                    by omega, ?_⟩
                  intro hcur
                  exact set_token_primitive_of_ne _ _ _ _ _ _ _ (by omega)
                · rw [if_neg h5]
                  by_cases h6 : (b p0 = 't' ∨ b p0 = 'f') ∧ ¬ simple = true
                  · rw [if_pos h6]
                    intro hs
                    exact absurd rfl hs
                  · rw [if_neg h6]
                    by_cases h7 : b p0 ≠ '"' ∧ ¬ simple = true
                    · rw [if_pos h7]
                      intro hs
                      exact absurd rfl hs
                    · rw [if_neg h7]
                      generalize hps : (if b p0 = '"' then p0 + 1 else p0 + 1 - 1) = ps
                      have hpsle : ps ≤ len := by
                        rw [← hps]
                        split <;> omega
                      generalize hstr : parse_string b len ps simple = str
                      rcases str with _ | string
                      · intro hs
                        exact absurd rfl hs
                      · intro _
                        try dsimp only
                        have hb : ps + string ≤ len :=
                          parse_string_bound b len ps simple string hpsle hstr
                        refine ⟨fun hsh => tree_shape_ok_extend_primitive t cap cur _ _ _ hsh
                            ⟨by simp, by simp⟩,
                          fun hsp hid => spans_ok_extend_primitive t len cap cur _ _ _ hsp
                            hid hb,
                          by omega, ?_⟩
                        intro hcur
                        exact set_token_primitive_of_ne _ _ _ _ _ _ _ (by omega)
      · rw [if_neg h0]
        intro hs
        exact absurd rfl hs
    · -- parse_object
      intro b len pos t cap cur simple hcur
      rw [parse_object]
      intro hs
      exact ihol b len (skip_whitespace b len pos) 0 t cap cur simple hcur (Or.inl rfl) hs
    · -- parse_object_loop
      intro b len pos last t cap cur simple hcur hlast
      rw [parse_object_loop]
      dsimp only
      by_cases g0 : pos < len
      · rw [if_pos g0]
        by_cases g1 : b pos = '}'
        · rw [if_pos g1]
          by_cases gv : last ≠ 0 ∧ ¬ is_valid_token t cap last = true
          · rw [if_pos gv]
            intro hs
            exact absurd rfl hs
          · rw [if_neg gv]
            intro _
            try dsimp only
            exact ⟨fun hsh => hsh, fun hsp => hsp, Nat.le_refl _, rfl⟩
        · rw [if_neg g1]
          by_cases g2 : b pos = ','
          · rw [if_pos g2]
            by_cases gv2 : last = 0 ∨ ¬ is_valid_token t cap last = true
            · rw [if_pos gv2]
              intro hs
              exact absurd rfl hs
            · rw [if_neg gv2]
              intro hs
              have hlast2 : 0 < last ∧ last < cur := by
                rcases hlast with h | h
                · exact absurd (Or.inl h) gv2
                · exact h
              obtain ⟨s1, s2, s3, s4⟩ := ihol b len (skip_whitespace b len (pos + 1)) 0
                (set_token_sibling t cap last cur) cap cur simple hcur (Or.inl rfl) hs
              refine ⟨fun hsh => s1 (tree_shape_ok_set_sibling t cap last cur cur hsh
                  hlast2.2),
                fun hsp => s2 (spans_ok_set_sibling t len cap last cur cur hsp), s3, ?_⟩
              rw [s4]
              exact set_token_sibling_of_ne _ _ _ _ _ (by omega)
          · rw [if_neg g2]
            by_cases g3 : last ≠ 0
            · rw [if_pos g3]
              intro hs
              exact absurd rfl hs
            · rw [if_neg g3]
              by_cases g4 : b pos ≠ '"' ∧ ¬ simple = true
              · rw [if_pos g4]
                intro hs
                exact absurd rfl hs
              · rw [if_neg g4]
                generalize hps : (if b pos = '"' then pos + 1 else pos + 1 - 1) = ps
                have hpsle : ps ≤ len := by
                  rw [← hps]
                  split <;> omega
                generalize hstr : parse_string b len ps simple = str
                rcases str with _ | string
                · intro hs
                  exact absurd rfl hs
                · dsimp only
                  have hb : ps + string ≤ len :=
                    parse_string_bound b len ps simple string hpsle hstr
                  by_cases g5 : b (skip_whitespace b len
                      (ps + if ¬ simple = true ∨ ps + string < len ∧ b (ps + string) = '"'
                        then string + 1 else string)) ≠ ':' ∧
                      (¬ simple = true ∨ b (skip_whitespace b len
                        (ps + if ¬ simple = true ∨ ps + string < len ∧ b (ps + string) = '"'
                          then string + 1 else string)) ≠ '=')
                  · rw [if_pos g5]
                    intro hs
                    exact absurd rfl hs
                  · rw [if_neg g5]
                    rcases hr : (parse_value b len ((skip_whitespace b len
                        (ps + if ¬ simple = true ∨ ps + string < len ∧ b (ps + string) = '"'
                          then string + 1 else string)) + 1)
                        (set_token_id t cap cur ps string) cap cur simple n).1 with _ | pos2
                    · intro hs
                      exact absurd rfl hs
                    · intro hs
                      obtain ⟨v1, v2, v3, v4⟩ := ihv b len _
                        (set_token_id t cap cur ps string) cap cur simple
                        (by rw [hr]; simp)
                      dsimp only at hs ⊢
                      by_cases g6 : simple = true ∧
                          skip_whitespace b len pos2 < len ∧
                          b (skip_whitespace b len pos2) ≠ ',' ∧
                          b (skip_whitespace b len pos2) ≠ '}'
                      · rw [if_pos g6] at hs ⊢
                        obtain ⟨s1, s2, s3, s4⟩ := ihol b len (skip_whitespace b len pos2) 0
                          (set_token_sibling _ cap cur _) cap _ simple (by omega)
                          (Or.inl rfl) hs
                        refine ⟨?_, ?_, by omega, ?_⟩
                        · intro hsh
                          exact s1 (tree_shape_ok_set_sibling _ cap cur _ _
                            (v1 (tree_shape_ok_set_id t cap cur ps string cur hsh))
                            (by omega))
                        · intro hsp
                          refine s2 (spans_ok_set_sibling _ len cap cur _ _ ?_)
                          refine v2 (spans_ok_set_id_at t len cap cur ps string cur hsp
                            (Nat.le_refl _)) ?_
                          intro hc
                          exact le_trans (set_token_id_id_span t cap cur ps string hc) hb
                        · rw [s4, set_token_sibling_of_ne _ _ _ _ _ (by omega),
                            v4 (by omega)]
                          exact set_token_id_of_ne _ _ _ _ _ _ (by omega)
                      · rw [if_neg g6] at hs ⊢
                        obtain ⟨s1, s2, s3, s4⟩ := ihol b len (skip_whitespace b len pos2) cur
                          _ cap _ simple (by omega) (Or.inr ⟨by omega, by omega⟩) hs
                        refine ⟨?_, ?_, by omega, ?_⟩
                        · intro hsh
                          exact s1 (v1 (tree_shape_ok_set_id t cap cur ps string cur hsh))
                        · intro hsp
                          refine s2 (v2 (spans_ok_set_id_at t len cap cur ps string cur hsp
                            (Nat.le_refl _)) ?_)
                          intro hc
                          exact le_trans (set_token_id_id_span t cap cur ps string hc) hb
                        · rw [s4, v4 (by omega)]
                          exact set_token_id_of_ne _ _ _ _ _ _ (by omega)
      · rw [if_neg g0]
        intro _
        try dsimp only
        exact ⟨fun hsh => hsh, fun hsp => hsp, Nat.le_refl _, rfl⟩
    · -- parse_array
      intro b len pos t cap cur simple hcur
      rw [parse_array]
      try dsimp only
      by_cases g0 : b (skip_whitespace b len pos) = ']'
      · rw [if_pos g0]
        intro _
        try dsimp only
        exact ⟨fun hsh => hsh, fun hsp => hsp, Nat.le_refl _, rfl⟩
      · rw [if_neg g0]
        intro hs
        exact ihal b len (skip_whitespace b len pos) 0 t cap cur simple hcur
          (Or.inl rfl) hs
    · -- parse_array_loop
      intro b len pos last t cap cur simple hcur hlast
      rw [parse_array_loop]
      dsimp only
      by_cases g0 : pos < len
      · rw [if_pos g0]
        rcases hr : (parse_value b len pos (set_token_id t cap cur 0 0)
            cap cur simple n).1 with _ | pos2
        · intro hs
          exact absurd rfl hs
        · intro hs
          obtain ⟨v1, v2, v3, v4⟩ := ihv b len pos (set_token_id t cap cur 0 0)
            cap cur simple (by rw [hr]; simp)
          dsimp only at hs ⊢
          have hsh3 : tree_shape_ok t cap cur → tree_shape_ok
              (if last ≠ 0 then
                set_token_sibling (parse_value b len pos (set_token_id t cap cur 0 0)
                  cap cur simple n).2.2 cap last cur
              else (parse_value b len pos (set_token_id t cap cur 0 0)
                  cap cur simple n).2.2) cap
              (parse_value b len pos (set_token_id t cap cur 0 0) cap cur simple n).2.1 := by
            intro hsh
            split
            · rename_i hl
              refine tree_shape_ok_set_sibling _ cap last cur _
                (v1 (tree_shape_ok_set_id t cap cur 0 0 cur hsh)) ?_
              rcases hlast with h | h
              · exact absurd h hl
              · omega
            · exact v1 (tree_shape_ok_set_id t cap cur 0 0 cur hsh)
          have hsp3 : spans_ok t len cap cur → spans_ok
              (if last ≠ 0 then
                set_token_sibling (parse_value b len pos (set_token_id t cap cur 0 0)
                  cap cur simple n).2.2 cap last cur
              else (parse_value b len pos (set_token_id t cap cur 0 0)
                  cap cur simple n).2.2) len cap
              (parse_value b len pos (set_token_id t cap cur 0 0) cap cur simple n).2.1 := by
            intro hsp
            have hsp2 := v2 (spans_ok_set_id_at t len cap cur 0 0 cur hsp (Nat.le_refl _))
              (fun hc => le_trans (set_token_id_id_span t cap cur 0 0 hc) (by omega))
            split
            · exact spans_ok_set_sibling _ len cap last cur _ hsp2
            · exact hsp2
          have hs03 : (if last ≠ 0 then
                set_token_sibling (parse_value b len pos (set_token_id t cap cur 0 0)
                  cap cur simple n).2.2 cap last cur
              else (parse_value b len pos (set_token_id t cap cur 0 0)
                  cap cur simple n).2.2) 0 = t 0 := by
            have htz : (parse_value b len pos (set_token_id t cap cur 0 0)
                cap cur simple n).2.2 0 = t 0 := by
              rw [v4 (by omega)]
              exact set_token_id_of_ne _ _ _ _ _ _ (by omega)
            split
            · rename_i hl
              rw [set_token_sibling_of_ne _ _ _ _ _ (by
                  rcases hlast with h | h
                  · exact absurd h hl
                  · omega)]
              exact htz
            · exact htz
          by_cases gc : b (skip_whitespace b len pos2) = ','
          · rw [if_pos gc] at hs ⊢
            obtain ⟨s1, s2, s3, s4⟩ := ihal b len (skip_whitespace b len pos2 + 1) cur
              _ cap _ simple (by omega) (Or.inr ⟨by omega, by omega⟩) hs
            refine ⟨fun hsh => s1 (hsh3 hsh), fun hsp => s2 (hsp3 hsp), by omega, ?_⟩
            rw [s4]
            exact hs03
          · rw [if_neg gc] at hs ⊢
            by_cases gb : b (skip_whitespace b len pos2) = ']'
            · rw [if_pos gb] at hs ⊢
              exact ⟨hsh3, hsp3, by dsimp only; omega, hs03⟩
            · rw [if_neg gb] at hs ⊢
              by_cases gs : ¬ simple = true
              · rw [if_pos gs] at hs ⊢
                exact absurd rfl hs
              · rw [if_neg gs] at hs ⊢
                obtain ⟨s1, s2, s3, s4⟩ := ihal b len (skip_whitespace b len pos2) cur
                  _ cap _ simple (by omega) (Or.inr ⟨by omega, by omega⟩) hs
                refine ⟨fun hsh => s1 (hsh3 hsh), fun hsp => s2 (hsp3 hsp), by omega, ?_⟩
                rw [s4]
                exact hs03
      · rw [if_neg g0]
        intro hs
        exact absurd rfl hs

/-! ## Entry-point invariants and the amended literal rule (claims C4, C8, C10) -/

/-- `skip_whitespace` is the identity on a position holding a
non-whitespace character. -/
theorem skip_whitespace_no_ws (b : Nat → Char) (len pos : Nat)
    (h : is_whitespace (b pos) = false) : skip_whitespace b len pos = pos := by
  rw [skip_whitespace]
  cases hk : len - pos with
  | zero => rfl
  | succ k =>
    rw [skip_whitespace_go]
    split
    · rw [h]
      rfl
    · rfl


/-- On success, `json_parse` returns a token array satisfying both the
tree shape invariant and the span containment invariant up to the
returned count, for every initial array. -/
theorem json_parse_invariants (b : Nat → Char) (len : Nat) (t : Nat → json_token)
    (cap fuel : Nat) (hne : (json_parse b len t cap fuel).1 ≠ 0) :
    tree_shape_ok (json_parse b len t cap fuel).2 cap (json_parse b len t cap fuel).1 ∧
      spans_ok (json_parse b len t cap fuel).2 len cap (json_parse b len t cap fuel).1 := by
  cases hr : (parse_value b len 0
      (set_token_primitive (set_token_id t cap 0 0 0) cap 0 .JSON_UNDEFINED 0 0)
      cap 0 false fuel).1 with
  | none =>
    rw [json_parse] at hne
    try dsimp only at hne
    rw [hr] at hne
    exact absurd rfl hne
  | some pos =>
    obtain ⟨i1, i2, i3, i4⟩ := (parse_success_invariants fuel).1 b len 0
      (set_token_primitive (set_token_id t cap 0 0 0) cap 0 .JSON_UNDEFINED 0 0)
      cap 0 false (by rw [hr]; simp)
    have hj : json_parse b len t cap fuel =
        ((parse_value b len 0
          (set_token_primitive (set_token_id t cap 0 0 0) cap 0 .JSON_UNDEFINED 0 0)
          cap 0 false fuel).2.1,
         (parse_value b len 0
          (set_token_primitive (set_token_id t cap 0 0 0) cap 0 .JSON_UNDEFINED 0 0)
          cap 0 false fuel).2.2) := by
      rw [json_parse]
      try dsimp only
      rw [hr]
    rw [hj]
    refine ⟨i1 ?_, i2 ?_ ?_⟩
    · intro i hi
      exact absurd hi (Nat.not_lt_zero i)
    · intro i hi
      exact absurd hi (Nat.not_lt_zero i)
    · intro hc
      simp [set_token_primitive, set_token_id, write_token, hc]

/-- On success, `sjson_parse` returns a token array satisfying the tree
shape invariant up to the returned count; it additionally satisfies the
span containment invariant whenever the key span pre-existing in slot 0
of the supplied array already lies inside the buffer (when the input
starts with `{`, `sjson_parse` never writes that span itself). -/
theorem sjson_parse_invariants (b : Nat → Char) (len : Nat) (t : Nat → json_token)
    (cap fuel : Nat) (hne : (sjson_parse b len t cap fuel).1 ≠ 0) :
    tree_shape_ok (sjson_parse b len t cap fuel).2 cap (sjson_parse b len t cap fuel).1 ∧
      ((t 0).id + (t 0).id_length ≤ len →
        spans_ok (sjson_parse b len t cap fuel).2 len cap
          (sjson_parse b len t cap fuel).1) := by
  by_cases hb : skip_whitespace b len 0 < len ∧ b (skip_whitespace b len 0) ≠ '{'
  · cases hr : (parse_object b len (skip_whitespace b len 0)
        (set_token_complex (set_token_id t cap 0 0 0) cap 0 .JSON_OBJECT)
        cap 1 true fuel).1 with
    | none =>
      rw [sjson_parse] at hne
      try dsimp only at hne
      rw [if_pos hb, hr] at hne
      exact absurd rfl hne
    | some pos =>
      obtain ⟨s1, s2, s3, s4⟩ := (parse_success_invariants fuel).2.1 b len
        (skip_whitespace b len 0)
        (set_token_complex (set_token_id t cap 0 0 0) cap 0 .JSON_OBJECT)
        cap 1 true (by omega) (by rw [hr]; simp)
      have hj : sjson_parse b len t cap fuel =
          ((parse_object b len (skip_whitespace b len 0)
            (set_token_complex (set_token_id t cap 0 0 0) cap 0 .JSON_OBJECT)
            cap 1 true fuel).2.1,
           (parse_object b len (skip_whitespace b len 0)
            (set_token_complex (set_token_id t cap 0 0 0) cap 0 .JSON_OBJECT)
            cap 1 true fuel).2.2) := by
        rw [sjson_parse]
        try dsimp only
        rw [if_pos hb, hr]
      rw [hj]
      refine ⟨s1 ?_, fun _ => s2 ?_⟩
      · intro i hi hic
        have hi0 : i = 0 := by omega
        subst hi0
        simp [set_token_complex, set_token_id, write_token, hic]
      · intro i hi hic
        have hi0 : i = 0 := by omega
        subst hi0
        simp [set_token_complex, set_token_id, write_token, hic]
  · cases hr : (parse_value b len (skip_whitespace b len 0) t cap 0 true fuel).1 with
    | none =>
      rw [sjson_parse] at hne
      try dsimp only at hne
      rw [if_neg hb, hr] at hne
      exact absurd rfl hne
    | some pos =>
      obtain ⟨i1, i2, i3, i4⟩ := (parse_success_invariants fuel).1 b len
        (skip_whitespace b len 0) t cap 0 true (by rw [hr]; simp)
      have hj : sjson_parse b len t cap fuel =
          ((parse_value b len (skip_whitespace b len 0) t cap 0 true fuel).2.1,
           (parse_value b len (skip_whitespace b len 0) t cap 0 true fuel).2.2) := by
        rw [sjson_parse]
        try dsimp only
        rw [if_neg hb, hr]
      rw [hj]
      refine ⟨i1 ?_, fun hid => i2 ?_ fun _ => hid⟩
      · intro i hi
        exact absurd hi (Nat.not_lt_zero i)
      · intro i hi
        exact absurd hi (Nat.not_lt_zero i)

/-- Claim C8: in every successful parse, strict or permissive, every token
at an index below both the returned count and the capacity satisfies the
tree indexing invariants: an Object or Array token's child is its own
index + 1, and every sibling field is either 0 (unset) or strictly
greater than the index of the token holding it — so no token other than
the root is ever designated by index 0. -/
theorem C8_index_invariants (b : Nat → Char) (len : Nat) (t : Nat → json_token)
    (cap fuel : Nat) :
    ((json_parse b len t cap fuel).1 ≠ 0 →
      tree_shape_ok (json_parse b len t cap fuel).2 cap (json_parse b len t cap fuel).1) ∧
    ((sjson_parse b len t cap fuel).1 ≠ 0 →
      tree_shape_ok (sjson_parse b len t cap fuel).2 cap
        (sjson_parse b len t cap fuel).1) :=
  ⟨fun hne => (json_parse_invariants b len t cap fuel hne).1,
   fun hne => (sjson_parse_invariants b len t cap fuel hne).1⟩

theorem C8_index_invariants_witness :
    tree_shape_ok (json_parse (strbuf input_arr4) 9 zero_tokens 100 64).2 100
        (json_parse (strbuf input_arr4) 9 zero_tokens 100 64).1 ∧
      tree_shape_ok (sjson_parse (strbuf input_a1) 3 zero_tokens 100 64).2 100
        (sjson_parse (strbuf input_a1) 3 zero_tokens 100 64).1 :=
  ⟨(C8_index_invariants (strbuf input_arr4) 9 zero_tokens 100 64).1 (by decide),
   (C8_index_invariants (strbuf input_a1) 3 zero_tokens 100 64).2 (by decide)⟩

/-- Claim C10 (amended): on every successful strict parse every token
below both the returned count and the capacity has its key span and its
value span contained in the input buffer; the same holds for the
permissive parse provided the key span pre-existing in slot 0 of the
supplied token array lies inside the buffer — the permissive parser
leaves that slot's key span unwritten when the input starts with `{`,
so without that proviso slot 0 can expose an out-of-bounds span. -/
theorem C10_spans_within_buffer (b : Nat → Char) (len : Nat) (t : Nat → json_token)
    (cap fuel : Nat) :
    ((json_parse b len t cap fuel).1 ≠ 0 →
      spans_ok (json_parse b len t cap fuel).2 len cap (json_parse b len t cap fuel).1) ∧
    ((t 0).id + (t 0).id_length ≤ len →
      (sjson_parse b len t cap fuel).1 ≠ 0 →
      spans_ok (sjson_parse b len t cap fuel).2 len cap
        (sjson_parse b len t cap fuel).1) :=
  ⟨fun hne => (json_parse_invariants b len t cap fuel hne).2,
   fun hid hne => (sjson_parse_invariants b len t cap fuel hne).2 hid⟩

theorem C10_spans_within_buffer_witness :
    spans_ok (json_parse (strbuf input_arr4) 9 zero_tokens 100 64).2 9 100
        (json_parse (strbuf input_arr4) 9 zero_tokens 100 64).1 ∧
      spans_ok (sjson_parse (strbuf input_a1) 3 zero_tokens 100 64).2 3 100
        (sjson_parse (strbuf input_a1) 3 zero_tokens 100 64).1 := by
  refine ⟨?_, ?_⟩
  · exact (C10_spans_within_buffer (strbuf input_arr4) 9 zero_tokens 100 64).1 (by decide)
  · exact (C10_spans_within_buffer (strbuf input_a1) 3 zero_tokens 100 64).2 (by decide)
      (by decide)

/-- Claim C4 (amended): for a buffer whose first byte is `t`, the strict
parse succeeds exactly when the bytes `rue` follow and a delimiter byte
lies *strictly inside* the buffer right after them — so the buffer must
be at least 5 bytes long and end of buffer does *not* terminate a
literal.  Concretely, `"true "` and `"false "` parse to one primitive
token of length 4 resp. 5, while the 4-byte `"true"`, the 5-byte
`"false"` and `"truex"` all fail. -/
theorem C4_literal_requires_delimiter (b : Nat → Char) (len : Nat)
    (t : Nat → json_token) (cap fuel : Nat) (hfuel : 1 ≤ fuel) (hb : b 0 = 't') :
    ((json_parse b len t cap fuel).1 ≠ 0 ↔
      (5 ≤ len ∧ b 1 = 'r' ∧ b 2 = 'u' ∧ b 3 = 'e' ∧
        is_token_delimiter (b 4) = true)) ∧
    (json_parse (strbuf input_true) 4 zero_tokens 4 64).1 = 0 ∧
    (json_parse (strbuf input_true_sp) 5 zero_tokens 4 64).1 = 1 ∧
    ((json_parse (strbuf input_true_sp) 5 zero_tokens 4 64).2 0).type =
      json_type.JSON_PRIMITIVE ∧
    ((json_parse (strbuf input_true_sp) 5 zero_tokens 4 64).2 0).value = 0 ∧
    ((json_parse (strbuf input_true_sp) 5 zero_tokens 4 64).2 0).value_length = 4 ∧
    (json_parse (strbuf input_truex) 5 zero_tokens 4 64).1 = 0 ∧
    (json_parse (strbuf input_false) 5 zero_tokens 4 64).1 = 0 ∧
    (json_parse (strbuf input_false_sp) 6 zero_tokens 4 64).1 = 1 ∧
    ((json_parse (strbuf input_false_sp) 6 zero_tokens 4 64).2 0).value_length = 5 := by
  refine ⟨?_, by decide, by decide, by decide, by decide, by decide, by decide,
    by decide, by decide, by decide⟩
  obtain ⟨n, rfl⟩ : ∃ n, fuel = n + 1 := ⟨fuel - 1, by omega⟩
  rw [json_parse]
  try dsimp only
  rw [parse_value]
  try dsimp only
  have hsw : skip_whitespace b len 0 = 0 :=
    skip_whitespace_no_ws b len 0 (by rw [hb]; decide)
  rw [hsw]
  by_cases h0 : 0 < len
  · rw [if_pos h0]
    rw [if_neg (show ¬ b 0 = '{' by rw [hb]; decide)]
    rw [if_neg (show ¬ b 0 = '[' by rw [hb]; decide)]
    rw [if_neg (show ¬ (b 0 = '-' ∨ ('0' ≤ b 0 ∧ b 0 ≤ '9') ∨ b 0 = '.') by
      rw [hb]; decide)]
    by_cases hcond : 5 ≤ len ∧ b 1 = 'r' ∧ b 2 = 'u' ∧ b 3 = 'e' ∧
        is_token_delimiter (b 4) = true
    · rw [if_pos (show b 0 = 't' ∧ len - (0 + 1) ≥ 4 ∧ b (0 + 1) = 'r' ∧
          b (0 + 1 + 1) = 'u' ∧ b (0 + 1 + 2) = 'e' ∧
          is_token_delimiter (b (0 + 1 + 3)) = true from
        ⟨hb, by omega, hcond.2.1, hcond.2.2.1, hcond.2.2.2.1, hcond.2.2.2.2⟩)]
      exact iff_of_true (by dsimp only; omega) hcond
    · rw [if_neg (show ¬ (b 0 = 't' ∧ len - (0 + 1) ≥ 4 ∧ b (0 + 1) = 'r' ∧
          b (0 + 1 + 1) = 'u' ∧ b (0 + 1 + 2) = 'e' ∧
          is_token_delimiter (b (0 + 1 + 3)) = true) from
        fun h4 => hcond ⟨by omega, h4.2.2.1, h4.2.2.2.1, h4.2.2.2.2.1,
          h4.2.2.2.2.2⟩)]
      rw [if_neg (show ¬ (b 0 = 'f' ∧ len - (0 + 1) ≥ 5 ∧ b (0 + 1) = 'a' ∧
          b (0 + 1 + 1) = 'l' ∧ b (0 + 1 + 2) = 's' ∧ b (0 + 1 + 3) = 'e' ∧
          is_token_delimiter (b (0 + 1 + 4)) = true) from
        fun h5 => by rw [hb] at h5; exact absurd h5.1 (by decide))]
      rw [if_pos (show (b 0 = 't' ∨ b 0 = 'f') ∧ ¬ (false : Bool) = true from
        ⟨Or.inl hb, by decide⟩)]
      exact iff_of_false (by dsimp only; omega) hcond
  · rw [if_neg h0]
    exact iff_of_false (by dsimp only; omega) (fun hc => absurd hc.1 (by omega))

theorem C4_literal_requires_delimiter_witness :
    (json_parse (strbuf input_true_sp) 5 zero_tokens 4 64).1 ≠ 0 ↔
      (5 ≤ 5 ∧ strbuf input_true_sp 1 = 'r' ∧ strbuf input_true_sp 2 = 'u' ∧
        strbuf input_true_sp 3 = 'e' ∧
        is_token_delimiter (strbuf input_true_sp 4) = true) :=
  (C4_literal_requires_delimiter (strbuf input_true_sp) 5 zero_tokens 4 64
    (by decide) (by decide)).1
